import Mathlib

/-!
# ai-reverse-engineering backend: shallow embedding and verified properties

The Go backend (`backend/utils/file_utils.go`, `backend/controllers/*.go`,
`backend/models/project.go`) is embedded as pure Lean functions.

* A Go `string` / `[]byte` that carries file names or file contents is a list of
  byte values (`Bytes`); every function below indexes and compares bytes exactly
  as the Go code does.
* The relational store (GORM over PostgreSQL), the Redis list used as the
  dispatch queue and the upload directory are explicit state; operations that
  can fail at run time take their outcome from an environment record.
* `float64` values are the rationals they denote, with an explicit
  round-to-nearest-even step after every operation that rounds.
-/

namespace ReverseEngineering

/-! ## Go strings and byte slices -/

/-- Byte sequences: the contents of a Go string or byte slice, one number 0..255 per byte. -/
abbrev Bytes := List Nat

/-- Bytes of a string literal of the source (all literals of the source are ASCII). -/
def lit (s : String) : Bytes := s.data.map Char.toNat

/-! ## `unicode/utf8.Valid` (Go standard library) -/

/-- Entry of the `first` table of package `unicode/utf8`: for a leading byte, the size
of the encoding and the accepted range of the second byte; `none` is the table's `xx`
(illegal leading byte). -/
def first (b : Nat) : Option (Nat × Nat × Nat) :=
  if b < 0x80 then some (1, 0x00, 0x00)
  else if b < 0xC2 then none
  else if b ≤ 0xDF then some (2, 0x80, 0xBF)
  else if b = 0xE0 then some (3, 0xA0, 0xBF)
  else if b ≤ 0xEC then some (3, 0x80, 0xBF)
  else if b = 0xED then some (3, 0x80, 0x9F)
  else if b ≤ 0xEF then some (3, 0x80, 0xBF)
  else if b = 0xF0 then some (4, 0x90, 0xBF)
  else if b ≤ 0xF3 then some (4, 0x80, 0xBF)
  else if b = 0xF4 then some (4, 0x80, 0x8F)
  else none

/-- Go `utf8.Valid`: the bytes are a sequence of well-formed UTF-8 encodings (no overlong
forms, no surrogates, nothing above U+10FFFF, no truncated sequence). -/
def Valid : Bytes → Bool
  | [] => true
  | p0 :: rest =>
    match first p0 with
    | none => false
    | some (size, lo, hi) =>
      if size = 1 then Valid rest
      else
        match rest with
        | [] => false
        | c1 :: r1 =>
          if c1 < lo ∨ hi < c1 then false
          else if size = 2 then Valid r1
          else
            match r1 with
            | [] => false
            | c2 :: r2 =>
              if c2 < 0x80 ∨ 0xBF < c2 then false
              else if size = 3 then Valid r2
              else
                match r2 with
                | [] => false
                | c3 :: r3 =>
                  if c3 < 0x80 ∨ 0xBF < c3 then false else Valid r3

/-! ## `float64` arithmetic (IEEE 754 binary64, round to nearest, ties to even) -/

/-- Nearest integer to a rational, ties going to the even neighbour. -/
def roundHalfEven (m : ℚ) : ℤ :=
  let f := ⌊m⌋
  let r := m - f
  if r < 1 / 2 then f
  else if 1 / 2 < r then f + 1
  else if f % 2 = 0 then f
  else f + 1

/-- The binary64 value nearest to the rational `x` (53-bit significand, gradual underflow
below `2 ^ (-1022)`); overflow to infinity is outside the range used by this program. -/
def roundFloat64 (x : ℚ) : ℚ :=
  if x = 0 then 0
  else
    let e : ℤ := max (Int.log 2 |x|) (-1022)
    let q : ℚ := (2 : ℚ) ^ (e - 52)
    (roundHalfEven (x / q) : ℚ) * q

/-- Go conversion `float64(n)` of an integer. -/
def float64OfInt (n : Nat) : ℚ := roundFloat64 (n : ℚ)

/-- Go `a / b` on `float64` operands. -/
def float64Div (a b : ℚ) : ℚ := roundFloat64 (a / b)

/-! ## `backend/utils/file_utils.go`: `IsTextFile` -/

/-- The table `binaryIndicators` of `IsTextFile`. -/
def binaryIndicators : List Bytes :=
  [ [0x00],                   -- NULL byte
    [0xFF, 0xFE],             -- UTF-16 LE BOM
    [0xFE, 0xFF],             -- UTF-16 BE BOM
    [0x7F, 0x45, 0x4C, 0x46], -- ELF binary
    [0x4D, 0x5A],             -- Windows PE/COFF
    [0x50, 0x4B],             -- ZIP/JAR
    [0x89, 0x50, 0x4E, 0x47], -- PNG
    [0xFF, 0xD8, 0xFF],       -- JPEG
    [0x47, 0x49, 0x46] ]      -- GIF

/-- Inner loop of `IsTextFile`: `for i, b := range indicator`, started at index `i`;
`matches` stays true while `content[i] == b`. -/
def indicatorLoop (content : Bytes) : Nat → Bytes → Bool
  | _, [] => true
  | i, b :: bs => if content.getD i 0 ≠ b then false else indicatorLoop content (i + 1) bs

/-- Body of the loop over `binaryIndicators` for one indicator: the length guard and the
byte-wise comparison. -/
def matchesIndicator (content indicator : Bytes) : Bool :=
  decide (indicator.length ≤ content.length) && indicatorLoop content 0 indicator

/-- Test `b < 32 && b != 9 && b != 10 && b != 13` of the sampling loop. -/
def isControlByte (b : Nat) : Bool :=
  decide (b < 32) && decide (b ≠ 9) && decide (b ≠ 10) && decide (b ≠ 13)

/-- Sampling loop `for i := 0; i < sampleSize; i++` of `IsTextFile`, returning
`controlCount`. -/
def countControl (content : Bytes) (sampleSize : Nat) : Nat :=
  (List.range sampleSize).foldl
    (fun controlCount i => if isControlByte (content.getD i 0) then controlCount + 1
      else controlCount) 0

/-- Go `IsTextFile(content []byte) bool`. -/
def IsTextFile (content : Bytes) : Bool :=
  if content.length = 0 then true
  else if !Valid content then false
  else if binaryIndicators.any (matchesIndicator content) then false
  else
    let sampleSize := if content.length < 512 then content.length else 512
    let controlCount := countControl content sampleSize
    decide (float64Div (float64OfInt controlCount) (float64OfInt sampleSize)
      < roundFloat64 (3 / 10))

/-! ## `path/filepath` and `strings` (Go standard library, Unix build) -/

/-- Go `os.IsPathSeparator` on Unix: the byte is a slash. -/
def IsPathSeparator (c : Nat) : Bool := c == 0x2F

/-- Loop of `filepath.Ext`, `for i := len(path) - 1; i >= 0 && !IsPathSeparator(path[i]); i--`;
the argument is `i + 1`. -/
def extLoop (path : Bytes) : Nat → Bytes
  | 0 => []
  | i + 1 =>
    if IsPathSeparator (path.getD i 0) then []
    else if path.getD i 0 = 0x2E then path.drop i
    else extLoop path i

/-- Go `filepath.Ext`: the suffix beginning at the final dot of the final path element,
empty when that element has no dot. -/
def Ext (path : Bytes) : Bytes := extLoop path path.length

/-- First loop of `filepath.Base` (strip trailing slashes); takes and returns a length. -/
def trimSlashLoop (path : Bytes) : Nat → Nat
  | 0 => 0
  | n + 1 => if IsPathSeparator (path.getD n 0) then trimSlashLoop path n else n + 1

/-- Second loop of `filepath.Base` (find the last element); takes and returns `i + 1`. -/
def lastElementLoop (path : Bytes) : Nat → Nat
  | 0 => 0
  | i + 1 => if !IsPathSeparator (path.getD i 0) then lastElementLoop path i else i + 1

/-- Go `filepath.Base` (the volume name is empty on Unix). -/
def Base (path : Bytes) : Bytes :=
  if path = [] then lit "."
  else
    let path1 := path.take (trimSlashLoop path path.length)
    let path2 := path1.drop (lastElementLoop path1 path1.length)
    if path2 = [] then lit "/" else path2

/-- Byte step of the ASCII branch of `strings.ToLower`: `c += 'a' - 'A'` on `'A'..'Z'`. -/
def lowerByte (c : Nat) : Nat := if 0x41 ≤ c ∧ c ≤ 0x5A then c + 0x20 else c

/-- Go `strings.ToLower`. A string of ASCII bytes only is lowered byte by byte; any other
string goes through `strings.Map(unicode.ToLower, s)`, whose Unicode tables are not part
of this development and are taken as the parameter `mapLower`. -/
def ToLower (mapLower : Bytes → Bytes) (s : Bytes) : Bytes :=
  if s.all (fun c => decide (c < 0x80)) then s.map lowerByte else mapLower s

/-- Go `strings.HasPrefix`: `len(s) >= len(p) && s[:len(p)] == p`. -/
def HasPrefix (s p : Bytes) : Bool :=
  decide (p.length ≤ s.length) && decide (s.take p.length = p)

/-- Go `strings.Contains`: `substr` occurs in `s` at some byte offset. -/
def Contains (s substr : Bytes) : Bool :=
  (List.range (s.length + 1)).any (fun i => ( HasPrefix (s.drop i) substr))

/-! ## `backend/utils/file_utils.go`: `DetectLanguage` -/

/-- The map literal `languageMap` of `DetectLanguage`. -/
def languageMap : List (Bytes × Bytes) :=
  [ (lit ".go", lit "go"),
    (lit ".js", lit "javascript"),
    (lit ".ts", lit "typescript"),
    (lit ".jsx", lit "javascript"),
    (lit ".tsx", lit "typescript"),
    (lit ".py", lit "python"),
    (lit ".java", lit "java"),
    (lit ".c", lit "c"),
    (lit ".cpp", lit "cpp"),
    (lit ".cc", lit "cpp"),
    (lit ".cxx", lit "cpp"),
    (lit ".h", lit "c"),
    (lit ".hpp", lit "cpp"),
    (lit ".cs", lit "csharp"),
    (lit ".php", lit "php"),
    (lit ".rb", lit "ruby"),
    (lit ".rs", lit "rust"),
    (lit ".swift", lit "swift"),
    (lit ".kt", lit "kotlin"),
    (lit ".scala", lit "scala"),
    (lit ".r", lit "r"),
    (lit ".sql", lit "sql"),
    (lit ".sh", lit "shell"),
    (lit ".bash", lit "shell"),
    (lit ".zsh", lit "shell"),
    (lit ".ps1", lit "powershell"),
    (lit ".html", lit "html"),
    (lit ".htm", lit "html"),
    (lit ".css", lit "css"),
    (lit ".scss", lit "scss"),
    (lit ".sass", lit "sass"),
    (lit ".json", lit "json"),
    (lit ".xml", lit "xml"),
    (lit ".yaml", lit "yaml"),
    (lit ".yml", lit "yaml"),
    (lit ".toml", lit "toml"),
    (lit ".md", lit "markdown"),
    (lit ".txt", lit "text"),
    (lit ".dockerfile", lit "dockerfile") ]

/-- Go `DetectLanguage(filename string) string`. -/
def DetectLanguage (mapLower : Bytes → Bytes) (filename : Bytes) : Bytes :=
  let ext := ToLower mapLower (Ext filename)
  match languageMap.lookup ext with
  | some lang => lang
  | none =>
    let baseName := ToLower mapLower (Base filename)
    if baseName = lit "dockerfile" ∨ ( HasPrefix baseName (lit "dockerfile.")) = true then
      lit "dockerfile"
    else if baseName = lit "makefile" ∨ ( HasPrefix baseName (lit "makefile.")) = true then
      lit "makefile"
    else lit "unknown"

/-- Go `strconv.ParseUint(s, 10, 32)`: a non-empty run of decimal digits whose value fits
in 32 bits; `none` is the error result. -/
def ParseUint (s : Bytes) : Option Nat :=
  if s = [] then none
  else if s.all (fun c => decide (0x30 ≤ c ∧ c ≤ 0x39)) then
    let v := s.foldl (fun acc c => 10 * acc + (c - 0x30)) 0
    if v < 2 ^ 32 then some v else none
  else none

/-! ## `backend/models/project.go`

Rows carry the columns the controllers read or write. The timestamp columns `CreatedAt`
and `UpdatedAt` are left out; `DeletedAt` is kept as the flag `Deleted` (GORM soft delete:
a row whose `DeletedAt` is set is skipped by every default query). -/

/-- Row of `models.Project`. -/
structure Project where
  ID : Nat
  Name : String
  Description : String
  UserID : Nat
  Status : String
  Deleted : Bool
  deriving DecidableEq, Repr

/-- Row of `models.File`. -/
structure File where
  ID : Nat
  ProjectID : Nat
  Name : Bytes
  Path : Bytes
  Size : Nat
  MimeType : Bytes
  Content : Bytes
  Language : Bytes
  Deleted : Bool
  deriving DecidableEq, Repr

/-- Row of `models.Analysis`; `FileID` is the nullable `*uint`. -/
structure Analysis where
  ID : Nat
  ProjectID : Nat
  FileID : Option Nat
  Type_ : String
  Status : String
  Result : String
  Metadata : String
  Deleted : Bool
  deriving DecidableEq, Repr

/-- The database behind `*gorm.DB`: the three tables and the serial counters that assign
primary keys on insert. -/
structure Store where
  projects : List Project
  files : List File
  analyses : List Analysis
  nextFileID : Nat
  nextAnalysisID : Nat
  deriving DecidableEq, Repr

/-- Query `db.First(&project, id)`: the live project row with that primary key, `none`
for `gorm.ErrRecordNotFound`. -/
def Store.firstProject (db : Store) (id : Nat) : Option Project :=
  db.projects.find? (fun p => p.ID == id && !p.Deleted)

/-- Rows loaded by `Preload("Files")` for a project: its live file rows. -/
def Store.preloadFiles (db : Store) (projectID : Nat) : List File :=
  db.files.filter (fun f => f.ProjectID == projectID && !f.Deleted)

/-- Insert `db.Create(&analysis)`: the row gets the next serial id, which is written back
into the Go value. -/
def Store.createAnalysis (db : Store) (analysis : Analysis) : Store × Analysis :=
  let row := { analysis with ID := db.nextAnalysisID }
  ({ db with analyses := db.analyses ++ [row], nextAnalysisID := db.nextAnalysisID + 1 }, row)

/-- Insert `db.Create(&fileModel)`. -/
def Store.createFile (db : Store) (file : File) : Store × File :=
  let row := { file with ID := db.nextFileID }
  ({ db with files := db.files ++ [row], nextFileID := db.nextFileID + 1 }, row)

/-- Statement `db.Model(&project).Update("status", status)`: sets the column on the live
row with the project's primary key. -/
def Store.updateProjectStatus (db : Store) (projectID : Nat) (status : String) : Store :=
  let set := fun (p : Project) =>
    if p.ID = projectID ∧ p.Deleted = false then { p with Status := status } else p
  { db with projects := db.projects.map set }

/-- Statement `db.Delete(&models.Project{}, id)`: soft delete of the live row with that
primary key; file and analysis rows are not touched. -/
def Store.deleteProject (db : Store) (id : Nat) : Store :=
  let set := fun (p : Project) =>
    if p.ID = id ∧ p.Deleted = false then { p with Deleted := true } else p
  { db with projects := db.projects.map set }

/-! ## `backend/controllers/analysis_controller.go` -/

/-- Payload `taskData` pushed on the Redis list `analysis:queue`. -/
structure TaskData where
  analysis_id : Nat
  project_id : Nat
  type_ : String
  deriving DecidableEq, Repr

/-- State the analysis controller works on: the database and the Redis list
`analysis:queue`, head (left end) first. -/
structure World where
  db : Store
  queue : List TaskData
  deriving DecidableEq, Repr

/-- Redis `LPUSH`: the element is inserted at the left end of the list. -/
def World.LPush (w : World) (task : TaskData) : World :=
  { w with queue := task :: w.queue }

/-- Run-time outcomes the controller cannot decide by itself: whether the project query
fails with a database error, whether the insert and the `LPUSH` of the `i`-th loop
iteration (counted from 0) fail, whether the final status update fails, and the text
`err.Error()` that the request binding produces for a list of failed fields. -/
structure AnalysisEnv where
  lookupError : Bool
  createError : Nat → Bool
  pushError : Nat → Bool
  updateError : Bool
  bindErrorText : List String → String

/-- Decoded body of `POST /analysis/start`. `Types` is `none` for a nil slice (the key is
absent or `null`) and `some l` for a JSON array, the empty array included. A body that
does not decode into the struct is answered 400 by `ShouldBindJSON` before anything else
happens and has no representation here. -/
structure StartAnalysisRequest where
  ProjectID : Nat
  Types : Option (List String)
  deriving DecidableEq, Repr

/-- Answer written with `c.JSON`: the status code with either the `error` text or the
`message` and the payload of the success body (`analyses`, `files`, or nothing). -/
inductive Reply (α : Type) where
  | error (status : Nat) (error : String)
  | ok (status : Nat) (message : String) (payload : α)
  deriving DecidableEq, Repr

/-- Status code of an answer. -/
def Reply.status {α : Type} : Reply α → Nat
  | .error status _ => status
  | .ok status _ _ => status

/-- Fields that fail the `binding:"required"` tags of the request struct: a `uint` fails
when it is zero, a slice fails when it is nil (an empty, non-nil slice passes). -/
def requiredFailures (request : StartAnalysisRequest) : List String :=
  (if request.ProjectID = 0 then ["ProjectID"] else []) ++
  (if request.Types.isNone then ["Types"] else [])

/-- The loop `for _, analysisType := range request.Types` of `StartAnalysis`, at iteration
`i` with the tasks created so far in `createdAnalyses`; the result is the state and either
the answer of an early return or the completed `createdAnalyses`. -/
def analysisLoop (env : AnalysisEnv) (projectID : Nat) :
    List String → Nat → World → List Analysis →
      World × Except (Reply (List Analysis)) (List Analysis)
  | [], _, w, createdAnalyses => (w, .ok createdAnalyses)
  | analysisType :: rest, i, w, createdAnalyses =>
    if env.createError i then
      (w, .error (Reply.error 500 "Failed to create analysis task"))
    else
      let created := w.db.createAnalysis
        { ID := 0, ProjectID := projectID, FileID := none, Type_ := analysisType,
          Status := "pending", Result := "", Metadata := "", Deleted := false }
      let w1 : World := { w with db := created.1 }
      let analysis := created.2
      if env.pushError i then
        (w1, .error (Reply.error 500 "Failed to queue analysis task"))
      else
        let w2 := w1.LPush
          { analysis_id := analysis.ID, project_id := projectID, type_ := analysisType }
        analysisLoop env projectID rest (i + 1) w2 (createdAnalyses ++ [analysis])

/-- Go `(*AnalysisController).StartAnalysis`. -/
def StartAnalysis (env : AnalysisEnv) (w : World) (request : StartAnalysisRequest) :
    World × Reply (List Analysis) :=
  if requiredFailures request ≠ [] then
    (w, Reply.error 400 (env.bindErrorText (requiredFailures request)))
  else if env.lookupError then
    (w, Reply.error 500 "Failed to verify project")
  else
    match w.db.firstProject request.ProjectID with
    | none => (w, Reply.error 404 "Project not found")
    | some project =>
      if (w.db.preloadFiles project.ID).length = 0 then
        (w, Reply.error 400 "No files found in project")
      else
        match analysisLoop env request.ProjectID (request.Types.getD []) 0 w [] with
        | (w1, .error reply) => (w1, reply)
        | (w1, .ok createdAnalyses) =>
          let w2 : World :=
            if env.updateError then w1
            else { w1 with db := w1.db.updateProjectStatus project.ID "analyzing" }
          (w2, Reply.ok 201 "Analysis started successfully" createdAnalyses)

/-! ## `backend/controllers/project_controller.go`: `DeleteProject` -/

/-- Go `(*ProjectController).DeleteProject` on the path parameter `id`; `deleteError` is
the outcome of the delete statement. -/
def DeleteProject (deleteError : Bool) (db : Store) (idParam : Bytes) : Store × Reply Unit :=
  match ParseUint idParam with
  | none => (db, Reply.error 400 "Invalid project ID")
  | some id =>
    if deleteError then (db, Reply.error 500 "Failed to delete project")
    else (db.deleteProject id, Reply.ok 200 "Project deleted successfully" ())

/-! ## `backend/controllers/file_controller.go` -/

/-- One part of the multipart field `files`: the `multipart.FileHeader` (name, size,
`Content-Type` header) and the bytes of the part. -/
structure UploadedFile where
  Filename : Bytes
  Size : Nat
  ContentType : Bytes
  data : Bytes
  deriving DecidableEq, Repr

/-- The upload directory: the regular files written so far, latest write first. -/
abbrev FileSystem := List (Bytes × Bytes)

/-- State the file controller works on. -/
structure UploadWorld where
  db : Store
  fs : FileSystem
  deriving DecidableEq, Repr

/-- Run-time inputs of the file controller: the `UPLOAD_PATH` variable, `filepath.Join`
(path cleaning is not part of this development), the non-ASCII branch of
`strings.ToLower`, and the outcomes of the project query, of `os.MkdirAll`, and of saving,
opening and inserting the `i`-th file of the request (counted from 0). -/
structure UploadEnv where
  uploadPath : Bytes
  Join : Bytes → Bytes → Bytes
  mapLower : Bytes → Bytes
  lookupError : Bool
  mkdirError : Bool
  saveError : Nat → Bool
  readError : Nat → Bool
  createError : Nat → Bool

/-- The multipart form of `POST /files/upload`: the value of `project_id` (empty when
absent) and the parts of `files`; `none` when `c.MultipartForm()` fails. -/
structure UploadForm where
  project_id : Bytes
  files : Option (List UploadedFile)
  deriving DecidableEq, Repr

/-- Go `(*FileController).readFileContent`: `openError` is the outcome of `os.Open` and
`io.ReadAll`; the result is `error` for the Go error result. -/
def readFileContent (fs : FileSystem) (openError : Bool) (filePath : Bytes) :
    Except Unit Bytes :=
  if openError then .error ()
  else
    match fs.lookup filePath with
    | none => .error ()
    | some content => if IsTextFile content then .ok content else .ok []

/-- The loop `for _, file := range files` of `UploadFiles`, at iteration `i` with the rows
stored so far in `uploadedFiles`. -/
def uploadLoop (env : UploadEnv) (projectID : Nat) (projectUploadPath : Bytes) :
    List UploadedFile → Nat → UploadWorld → List File →
      UploadWorld × Except (Reply (List File)) (List File)
  | [], _, w, uploadedFiles => (w, .ok uploadedFiles)
  | file :: rest, i, w, uploadedFiles =>
    let filename := Base file.Filename
    if filename = lit "." ∨ filename = lit ".." ∨ Contains filename (lit "/") = true then
      uploadLoop env projectID projectUploadPath rest (i + 1) w uploadedFiles
    else
      let savePath := env.Join projectUploadPath filename
      if env.saveError i then
        (w, .error (Reply.error 500
          ("Failed to save file: " ++ String.mk (filename.map Char.ofNat))))
      else
        let w1 : UploadWorld := { w with fs := (savePath, file.data) :: w.fs }
        let content : Bytes :=
          match readFileContent w1.fs (env.readError i) savePath with
          | .ok content => content
          | .error _ => []
        if env.createError i then
          (w1, .error (Reply.error 500
            ("Failed to save file metadata: " ++ String.mk (filename.map Char.ofNat))))
        else
          let created := w1.db.createFile
            { ID := 0, ProjectID := projectID, Name := filename, Path := savePath,
              Size := file.Size, MimeType := file.ContentType, Content := content,
              Language := DetectLanguage env.mapLower filename, Deleted := false }
          uploadLoop env projectID projectUploadPath rest (i + 1)
            { w1 with db := created.1 } (uploadedFiles ++ [created.2])

/-- Go `(*FileController).UploadFiles`. -/
def UploadFiles (env : UploadEnv) (w : UploadWorld) (form : UploadForm) :
    UploadWorld × Reply (List File) :=
  if form.project_id = [] then (w, Reply.error 400 "project_id is required")
  else
    match ParseUint form.project_id with
    | none => (w, Reply.error 400 "Invalid project_id")
    | some projectID =>
      if env.lookupError then (w, Reply.error 500 "Failed to verify project")
      else
        match w.db.firstProject projectID with
        | none => (w, Reply.error 404 "Project not found")
        | some _ =>
          match form.files with
          | none => (w, Reply.error 400 "Failed to parse multipart form")
          | some files =>
            if files.length = 0 then (w, Reply.error 400 "No files provided")
            else
              let uploadPath := if env.uploadPath = [] then lit "./uploads" else env.uploadPath
              let projectUploadPath := env.Join uploadPath (lit (Nat.repr projectID))
              if env.mkdirError then
                (w, Reply.error 500 "Failed to create upload directory")
              else
                match uploadLoop env projectID projectUploadPath files 0 w [] with
                | (w1, .error reply) => (w1, reply)
                | (w1, .ok uploadedFiles) =>
                  (w1, Reply.ok 200 "Files uploaded successfully" uploadedFiles)

/-! ## `backend/utils/file_utils.go`: `SanitizeFilename` -/

/-- Scan of Go `strings.ReplaceAll(s, old, new)` for a non-empty `old`: the occurrences of
`old` are found from left to right without overlap and each is replaced by `new`. `fuel`
bounds the number of steps; every step consumes at least one byte of `s`. -/
def replaceLoop (old new : Bytes) : Nat → Bytes → Bytes
  | 0, s => s
  | fuel + 1, s =>
    match s with
    | [] => []
    | c :: rest =>
      if ( HasPrefix (c :: rest) old) = true then
        new ++ replaceLoop old new fuel ((c :: rest).drop old.length)
      else c :: replaceLoop old new fuel rest

/-- Go `strings.ReplaceAll(s, old, new)`, for the non-empty `old` arguments of the source. -/
def ReplaceAll (s old new : Bytes) : Bytes := replaceLoop old new s.length s

/-- Go `strings.HasSuffix`: `len(s) >= len(suffix) && s[len(s)-len(suffix):] == suffix`. -/
def HasSuffix (s suffix : Bytes) : Bool :=
  decide (suffix.length ≤ s.length) && decide (s.drop (s.length - suffix.length) = suffix)

/-- Go `strings.TrimSuffix`. -/
def TrimSuffix (s suffix : Bytes) : Bytes :=
  if HasSuffix s suffix = true then s.take (s.length - suffix.length) else s

/-- Go slice expression `s[:n]` on a string with a signed bound: `none` is the run-time
panic "slice bounds out of range" (the bound is negative or exceeds `len(s)`). -/
def sliceTo (s : Bytes) (n : Int) : Option Bytes :=
  if 0 ≤ n ∧ n ≤ (s.length : Int) then some (s.take n.toNat) else none

/-- Go `SanitizeFilename(filename string) string`; `none` is a run-time panic. -/
def SanitizeFilename (filename : Bytes) : Option Bytes :=
  let filename := ReplaceAll filename (lit "..") (lit "")
  let filename := ReplaceAll filename (lit "/") (lit "_")
  let filename := ReplaceAll filename [0x5C] (lit "_")
  let filename := ReplaceAll filename (lit ":") (lit "_")
  let filename := ReplaceAll filename (lit "*") (lit "_")
  let filename := ReplaceAll filename (lit "?") (lit "_")
  let filename := ReplaceAll filename [0x22] (lit "_")
  let filename := ReplaceAll filename (lit "<") (lit "_")
  let filename := ReplaceAll filename (lit ">") (lit "_")
  let filename := ReplaceAll filename (lit "|") (lit "_")
  if filename.length > 255 then
    let ext := Ext filename
    let base := TrimSuffix filename ext
    if (base.length : Int) > 255 - (ext.length : Int) then
      match sliceTo base (255 - (ext.length : Int)) with
      | none => none
      | some base => some (base ++ ext)
    else some (base ++ ext)
  else some filename

/-! ## `backend/utils/file_utils.go`: `GetFileSize` -/

/-- Go conversion `rune(x)` of an `int64`: the value wrapped to a signed 32-bit integer. -/
def toRune (x : Int) : Int := (x + 2 ^ 31) % 2 ^ 32 - 2 ^ 31

/-- Go conversion `string(r)` of a rune: the UTF-8 encoding of the code point `r`, and the
encoding of U+FFFD when `r` is not a valid code point (negative, a surrogate, or above
U+10FFFF). -/
def runeToString (r : Int) : Bytes :=
  let c := r.toNat
  if r < 0 ∨ 0x10FFFF < r ∨ (0xD800 ≤ r ∧ r ≤ 0xDFFF) then [0xEF, 0xBF, 0xBD]
  else if c < 0x80 then [c]
  else if c < 0x800 then [0xC0 + c / 64, 0x80 + c % 64]
  else if c < 0x10000 then [0xE0 + c / 4096, 0x80 + c / 64 % 64, 0x80 + c % 64]
  else [0xF0 + c / 262144, 0x80 + c / 4096 % 64, 0x80 + c / 64 % 64, 0x80 + c % 64]

/-- The loop `for n := bytes / unit; n >= unit; n /= unit` of `GetFileSize` on the state
`(n, div, exp)`; `fuel` bounds the iterations, and `n` itself is always enough because
every iteration divides `n` by 1024. -/
def sizeLoop : Nat → Nat → Nat → Nat → Nat × Nat
  | 0, _, div, exp => (div, exp)
  | fuel + 1, n, div, exp =>
    if n ≥ 1024 then sizeLoop fuel (n / 1024) (div * 1024) (exp + 1) else (div, exp)

/-- Go `GetFileSize(bytes int64) string`; `none` is the run-time panic of `units[exp]`
with an index out of range. Past the first test `bytes` is at least 1024, so it is handled
as a natural number; `div` stays far below `2 ^ 63` for every `int64` input. -/
def GetFileSize (bytes : Int) : Option Bytes :=
  if bytes < 1024 then some (runeToString (toRune bytes) ++ lit " B")
  else
    let b := bytes.toNat
    let r := sizeLoop (b / 1024) (b / 1024) 1024 0
    let div := r.1
    let exp := r.2
    let units := [lit "KB", lit "MB", lit "GB", lit "TB", lit "PB"]
    match units[exp]? with
    | none => none
    | some unit => some (runeToString (toRune ((b / div : Nat) : Int)) ++ lit " " ++ unit)

/-! ## `backend/controllers/analysis_controller.go`: the read handlers -/

/-- Run-time inputs of the read handlers: whether the query fails with a database error,
and the ordering `ORDER BY created_at DESC` that the database applies to the selected
rows (the timestamp columns are not part of the rows here). -/
structure ReadEnv where
  queryError : Bool
  orderByCreatedAtDesc : List Analysis → List Analysis

/-- Body `analysis` of `GetAnalysis`: the row with its preloaded `Project` and `File`
(absent when the referenced row is missing or soft-deleted). -/
structure AnalysisDetail where
  analysis : Analysis
  project : Option Project
  file : Option File
  deriving DecidableEq, Repr

/-- Query `db.First(&analysis, id)`: the live analysis row with that primary key. -/
def Store.firstAnalysis (db : Store) (id : Nat) : Option Analysis :=
  db.analyses.find? (fun a => a.ID == id && !a.Deleted)

/-- Go `(*AnalysisController).GetAnalysisByProject` on the path parameter `project_id`. -/
def GetAnalysisByProject (env : ReadEnv) (w : World) (param : Bytes) :
    World × Reply (List Analysis) :=
  match ParseUint param with
  | none => (w, Reply.error 400 "Invalid project ID")
  | some projectID =>
    if env.queryError then (w, Reply.error 500 "Failed to fetch analyses")
    else
      (w, Reply.ok 200 "" (env.orderByCreatedAtDesc
        (w.db.analyses.filter (fun a => a.ProjectID == projectID && !a.Deleted))))

/-- Go `(*AnalysisController).GetAnalysis` on the path parameter `id`. -/
def GetAnalysis (env : ReadEnv) (w : World) (param : Bytes) : World × Reply AnalysisDetail :=
  match ParseUint param with
  | none => (w, Reply.error 400 "Invalid analysis ID")
  | some id =>
    if env.queryError then (w, Reply.error 500 "Failed to fetch analysis")
    else
      match w.db.firstAnalysis id with
      | none => (w, Reply.error 404 "Analysis not found")
      | some analysis =>
        (w, Reply.ok 200 ""
          { analysis := analysis,
            project := w.db.firstProject analysis.ProjectID,
            file := analysis.FileID.bind
              (fun fileID => w.db.files.find? (fun f => f.ID == fileID && !f.Deleted)) })

/-- Go `(*AnalysisController).GetAnalysisStatus` on the path parameter `id`; the body holds
the selected columns `id` and `status` (and the two timestamps, not represented). -/
def GetAnalysisStatus (env : ReadEnv) (w : World) (param : Bytes) : World × Reply (Nat × String) :=
  match ParseUint param with
  | none => (w, Reply.error 400 "Invalid analysis ID")
  | some id =>
    if env.queryError then (w, Reply.error 500 "Failed to fetch analysis status")
    else
      match w.db.firstAnalysis id with
      | none => (w, Reply.error 404 "Analysis not found")
      | some analysis => (w, Reply.ok 200 "" (analysis.ID, analysis.Status))

/-! ## Vocabulary of the statements and example states -/

/-- The row `StartAnalysis` inserts for the type tag `t` when the store assigns `id`. -/
def pendingTask (projectID id : Nat) (t : String) : Analysis :=
  { ID := id, ProjectID := projectID, FileID := none, Type_ := t, Status := "pending",
    Result := "", Metadata := "", Deleted := false }

/-- The rows for a list of type tags, with consecutive ids from `id` on. -/
def pendingTasks (projectID : Nat) : Nat → List String → List Analysis
  | _, [] => []
  | id, t :: ts => pendingTask projectID id t :: pendingTasks projectID (id + 1) ts

/-- The queue descriptor of a task row. -/
def descriptor (a : Analysis) : TaskData :=
  { analysis_id := a.ID, project_id := a.ProjectID, type_ := a.Type_ }

/-- An environment in which no operation fails. -/
def quietEnv : AnalysisEnv :=
  { lookupError := false, createError := fun _ => false, pushError := fun _ => false,
    updateError := false,
    bindErrorText := fun fields => String.intercalate "\n"
      (fields.map fun f => "Field validation for '" ++ f ++ "' failed on the 'required' tag") }

/-- A database with one live project (id 1, status `pending`) that owns one file. -/
def exampleStore : Store :=
  { projects := [{ ID := 1, Name := "demo", Description := "", UserID := 1,
                   Status := "pending", Deleted := false }],
    files := [{ ID := 1, ProjectID := 1, Name := lit "main.go", Path := lit "uploads/1/main.go",
                Size := 13, MimeType := lit "text/plain", Content := lit "package main\n",
                Language := lit "go", Deleted := false }],
    analyses := [],
    nextFileID := 2,
    nextAnalysisID := 1 }

/-- The example database with an empty queue. -/
def exampleWorld : World := { db := exampleStore, queue := [] }

/-- An upload environment in which no operation fails; paths are joined with a slash. -/
def quietUploadEnv : UploadEnv :=
  { uploadPath := [], Join := fun dir name => dir ++ lit "/" ++ name, mapLower := fun s => s,
    lookupError := false, mkdirError := false, saveError := fun _ => false,
    readError := fun _ => false, createError := fun _ => false }

/-- An environment in which only the push of loop iteration `j` fails. -/
def pushFailsAt (j : Nat) : AnalysisEnv :=
  { quietEnv with pushError := fun i => decide (i = j) }

/-- The example database after its only file was soft-deleted: project 1 is live and has
no live file. -/
def emptyProjectWorld : World :=
  { db := { exampleStore with files := exampleStore.files.map fun f => { f with Deleted := true } },
    queue := [] }

/-- The example database with an empty upload directory. -/
def exampleUploadWorld : UploadWorld := { db := exampleStore, fs := [] }

/-- The client file name `..\evil.txt` (two dots, a backslash, `evil.txt`). -/
def backslashName : Bytes := lit ".." ++ [0x5C] ++ lit "evil.txt"

/-- An upload to project 1 of one empty part named `..\evil.txt`. -/
def backslashUpload : UploadForm :=
  { project_id := lit "1",
    files := some [{ Filename := backslashName, Size := 0, ContentType := lit "text/plain",
                     data := [] }] }

/-- A 265-byte file name: 250 times `a`, a dot, 10 times `b`, and the extension `.txt`. -/
def dotAtCutName : Bytes :=
  List.replicate 250 0x61 ++ lit "." ++ List.replicate 10 0x62 ++ lit ".txt"

/-- A 301-byte file name: a dot followed by 300 times `a`, so that the whole name is its
own extension. -/
def longExtensionName : Bytes := lit "." ++ List.replicate 300 0x61

/-- An upload to project 1 of two parts that share the name `d.txt`: the text `one` and
the bytes `PKtwo`, which start with the ZIP signature. -/
def sameNameUpload : UploadForm :=
  { project_id := lit "1",
    files := some
      [{ Filename := lit "d.txt", Size := 3, ContentType := lit "text/plain", data := lit "one" },
       { Filename := lit "d.txt", Size := 5, ContentType := lit "text/plain",
         data := lit "PKtwo" }] }

/-! # Verified properties -/

/-! ## `float64` rounding -/

theorem roundHalfEven_sub_le (m : ℚ) : |(roundHalfEven m : ℚ) - m| ≤ 1 / 2 := by
  have h1 : (⌊m⌋ : ℚ) ≤ m := Int.floor_le m
  have h2 : m < (⌊m⌋ : ℚ) + 1 := Int.lt_floor_add_one m
  unfold roundHalfEven
  simp only
  split_ifs with ha hb hc
  · rw [abs_le]; constructor <;> linarith
  · rw [abs_le]; push_cast; constructor <;> linarith
  · rw [abs_le]; constructor <;> linarith
  · rw [abs_le]; push_cast; constructor <;> linarith

theorem roundHalfEven_intCast (k : ℤ) : roundHalfEven (k : ℚ) = k := by
  unfold roundHalfEven
  simp

/-- Rounding a rational of `(0, 1]` to binary64 moves it by at most `2 ^ (-53)`. -/
theorem roundFloat64_error (x : ℚ) (h0 : 0 < x) (h1 : x ≤ 1) :
    |roundFloat64 x - x| ≤ 1 / 2 ^ 53 := by
  unfold roundFloat64
  rw [if_neg (ne_of_gt h0)]
  simp only
  have hlog : Int.log 2 |x| ≤ 0 := by
    rw [abs_of_pos h0]
    by_contra hcon
    push_neg at hcon
    have h2 : (2 : ℚ) ^ (1 : ℤ) ≤ ((2 : ℕ) : ℚ) ^ Int.log 2 x := by
      push_cast
      exact zpow_le_zpow_right₀ (by norm_num) (by omega)
    have h3 := Int.zpow_log_le_self (R := ℚ) (b := 2) (r := x) (by norm_num) h0
    have : (2 : ℚ) ^ (1 : ℤ) ≤ x := le_trans h2 h3
    norm_num at this
    linarith
  set e : ℤ := max (Int.log 2 |x|) (-1022) with he
  have he0 : e ≤ 0 := max_le hlog (by norm_num)
  set q : ℚ := (2 : ℚ) ^ (e - 52) with hq
  have hqpos : 0 < q := zpow_pos (by norm_num) _
  have hqle : q ≤ (2 : ℚ) ^ (-52 : ℤ) := zpow_le_zpow_right₀ (by norm_num) (by omega)
  have hr := roundHalfEven_sub_le (x / q)
  have hx : x = x / q * q := by field_simp
  have : (roundHalfEven (x / q) : ℚ) * q - x = ((roundHalfEven (x / q) : ℚ) - x / q) * q := by
    rw [sub_mul, ← hx]
  rw [this, abs_mul, abs_of_pos hqpos]
  have h52 : (2 : ℚ) ^ (-52 : ℤ) = 1 / 2 ^ 52 := by
    rw [zpow_neg]; norm_num
  calc |(roundHalfEven (x / q) : ℚ) - x / q| * q ≤ 1 / 2 * (2 : ℚ) ^ (-52 : ℤ) :=
        mul_le_mul hr hqle (le_of_lt hqpos) (by norm_num)
    _ = 1 / 2 ^ 53 := by rw [h52]; norm_num

/-- Integers below `2 ^ 53` convert to `float64` exactly. -/
theorem roundFloat64_natCast (n : ℕ) (hn : n < 2 ^ 53) : roundFloat64 (n : ℚ) = n := by
  unfold roundFloat64
  split_ifs with h0
  · exact h0.symm
  · simp only
    have hn0 : n ≠ 0 := by exact_mod_cast h0
    have habs : |(n : ℚ)| = n := abs_of_nonneg (Nat.cast_nonneg n)
    rw [habs, Int.log_natCast]
    have hlog : Nat.log 2 n < 53 := Nat.log_lt_of_lt_pow hn0 hn
    have hmax : max ((Nat.log 2 n : ℕ) : ℤ) (-1022) = (Nat.log 2 n : ℤ) := max_eq_left (by omega)
    rw [hmax]
    obtain ⟨d, hd⟩ : ∃ d : ℕ, (Nat.log 2 n : ℤ) - 52 = -(d : ℤ) := ⟨52 - Nat.log 2 n, by omega⟩
    rw [hd, zpow_neg, zpow_natCast]
    have hdiv : (n : ℚ) / ((2 : ℚ) ^ d)⁻¹ = (((n * 2 ^ d : ℕ) : ℤ) : ℚ) := by
      push_cast; field_simp
    rw [hdiv, roundHalfEven_intCast]
    push_cast
    field_simp

/-- The `float64` test `float64(c)/float64(s) < 0.3` of `IsTextFile` agrees with the exact
comparison `10 * c < 3 * s` on every sample of at most 512 bytes. -/
theorem float64_ratio_lt_iff (c s : ℕ) (hs : 0 < s) (hs512 : s ≤ 512) (hcs : c ≤ s) :
    float64Div (float64OfInt c) (float64OfInt s) < roundFloat64 (3 / 10) ↔ 10 * c < 3 * s := by
  have hpow : (512 : ℕ) < 2 ^ 53 := by norm_num
  unfold float64Div float64OfInt
  rw [roundFloat64_natCast c (by omega), roundFloat64_natCast s (by omega)]
  have hsq : (0 : ℚ) < s := by exact_mod_cast hs
  have hs512q : (s : ℚ) ≤ 512 := by exact_mod_cast hs512
  have e3 := roundFloat64_error (3 / 10) (by norm_num) (by norm_num)
  rw [abs_le] at e3
  have hsmall : (1 : ℚ) / 2 ^ 53 < 1 / 10240 := by norm_num
  have hgap : (1 : ℚ) / 5120 ≤ 1 / (10 * s) := by
    apply one_div_le_one_div_of_le (by positivity)
    linarith
  constructor
  · intro h
    by_contra hcon
    push_neg at hcon
    rcases Nat.eq_or_lt_of_le hcon with heq | hlt
    · have : (c : ℚ) / s = 3 / 10 := by
        rw [div_eq_div_iff (ne_of_gt hsq) (by norm_num)]
        have : ((3 * s : ℕ) : ℚ) = ((10 * c : ℕ) : ℚ) := by rw [heq]
        push_cast at this
        linarith
      rw [this] at h
      exact lt_irrefl _ h
    · have hc1 : 3 * s + 1 ≤ 10 * c := hlt
      have hc1q : (3 : ℚ) * s + 1 ≤ 10 * c := by exact_mod_cast hc1
      have hx : (3 : ℚ) / 10 + 1 / (10 * s) ≤ (c : ℚ) / s := by
        rw [div_add_div _ _ (by norm_num) (by positivity), div_le_div_iff₀ (by positivity) hsq]
        nlinarith
      have hxpos : (0 : ℚ) < (c : ℚ) / s := by
        have : (0:ℚ) < 1 / (10 * s) := by positivity
        linarith
      have hxle : (c : ℚ) / s ≤ 1 := by
        rw [div_le_one hsq]; exact_mod_cast hcs
      have ex := roundFloat64_error ((c : ℚ) / s) hxpos hxle
      rw [abs_le] at ex
      linarith [ex.1, e3.2]
  · intro h
    have hc1 : 10 * c + 1 ≤ 3 * s := h
    have hc1q : (10 : ℚ) * c + 1 ≤ 3 * s := by exact_mod_cast hc1
    have hx : (c : ℚ) / s ≤ 3 / 10 - 1 / (10 * s) := by
      rw [div_sub_div _ _ (by norm_num) (by positivity), div_le_div_iff₀ hsq (by positivity)]
      nlinarith
    rcases Nat.eq_zero_or_pos c with hc0 | hcpos
    · subst hc0
      have hz : roundFloat64 (((0 : ℕ) : ℚ) / s) = 0 := by
        simp [roundFloat64]
      rw [hz]
      have : (0 : ℚ) < 3 / 10 - 1 / 2 ^ 53 := by norm_num
      linarith [e3.1]
    · have hxpos : (0 : ℚ) < (c : ℚ) / s := by
        have : (0 : ℚ) < c := by exact_mod_cast hcpos
        positivity
      have hxle : (c : ℚ) / s ≤ 1 := by
        rw [div_le_one hsq]; exact_mod_cast hcs
      have ex := roundFloat64_error ((c : ℚ) / s) hxpos hxle
      rw [abs_le] at ex
      linarith [ex.2, e3.1]

/-! ## `IsTextFile` -/

theorem indicatorLoop_iff (content : Bytes) :
    ∀ (p : Bytes) (i : Nat), i + p.length ≤ content.length →
      (indicatorLoop content i p = true ↔ p <+: content.drop i) := by
  intro p
  induction p with
  | nil => intro i _; simp [indicatorLoop]
  | cons b bs ih =>
    intro i hi
    simp only [List.length_cons] at hi
    have hlt : i < content.length := by omega
    rw [List.drop_eq_getElem_cons hlt, List.cons_prefix_cons]
    have hget : content.getD i 0 = content[i] := by
      simp [List.getD_eq_getElem?_getD, List.getElem?_eq_getElem hlt]
    simp only [indicatorLoop, hget]
    have := ih (i + 1) (by omega)
    by_cases hb : content[i] = b
    · simp [hb, this]
    · have hb' : ¬ b = content[i] := fun h => hb h.symm
      simp [hb, hb']

/-- The indicator test of `IsTextFile` holds exactly when the content starts with the
indicator. -/
theorem matchesIndicator_iff (content p : Bytes) :
    matchesIndicator content p = true ↔ p <+: content := by
  unfold matchesIndicator
  by_cases hlen : p.length ≤ content.length
  · have := indicatorLoop_iff content p 0 (by omega)
    simp [hlen, this]
  · have hnot : ¬ p <+: content := fun h => hlen h.length_le
    simp [hlen, hnot]

theorem countControl_eq (content : Bytes) :
    ∀ s : Nat, s ≤ content.length → countControl content s = (content.take s).countP isControlByte := by
  intro s
  induction s with
  | zero => intro _; simp [countControl]
  | succ n ih =>
    intro hn
    have hlt : n < content.length := by omega
    have ih' := ih (by omega)
    unfold countControl at ih' ⊢
    rw [List.range_succ, List.foldl_append, ih']
    have hget : content.getD n 0 = content[n] := by
      simp [List.getD_eq_getElem?_getD, List.getElem?_eq_getElem hlt]
    rw [List.take_succ, List.getElem?_eq_getElem hlt]
    simp only [List.foldl_cons, List.foldl_nil, hget, Option.toList_some, List.countP_append,
      List.countP_cons, List.countP_nil]
    by_cases hc : isControlByte content[n] = true <;> simp [hc]

/-- Value of `IsTextFile` on a non-empty, valid input that starts with no indicator. -/
theorem IsTextFile_eq_sample (b : Bytes) (hne : b ≠ []) (hvalid : Valid b = true)
    (hsig : ∀ p ∈ binaryIndicators, ¬ p <+: b) :
    IsTextFile b =
      decide (10 * (b.take 512).countP isControlByte < 3 * (b.take 512).length) := by
  have hlen : b.length ≠ 0 := by simpa using hne
  have hany : binaryIndicators.any (matchesIndicator b) = false := by
    rw [Bool.eq_false_iff]
    intro h
    rw [List.any_eq_true] at h
    obtain ⟨p, hp, hm⟩ := h
    exact hsig p hp ((matchesIndicator_iff b p).1 hm)
  unfold IsTextFile
  rw [if_neg hlen]
  simp only [hvalid, hany, Bool.not_true, Bool.false_eq_true, if_false]
  by_cases h512 : b.length < 512
  · have htake : b.take 512 = b := List.take_of_length_le (by omega)
    have hcount : countControl b b.length = b.countP isControlByte := by
      rw [countControl_eq b b.length le_rfl, List.take_length]
    rw [if_pos h512, htake, hcount]
    have := float64_ratio_lt_iff (b.countP isControlByte) b.length (by omega) (by omega)
      (List.countP_le_length _)
    exact decide_eq_decide.2 this
  · have hl : (b.take 512).length = 512 := by
      rw [List.length_take]; omega
    rw [if_neg h512, countControl_eq b 512 (by omega), hl]
    have hle : (b.take 512).countP isControlByte ≤ 512 := by
      have := List.countP_le_length isControlByte (l := b.take 512)
      omega
    have := float64_ratio_lt_iff ((b.take 512).countP isControlByte) 512 (by omega) (by omega) hle
    exact decide_eq_decide.2 this

/-- A byte sequence that passes `IsTextFile` passed its `utf8.Valid` guard. -/
theorem IsTextFile_valid (b : Bytes) (h : IsTextFile b = true) : Valid b = true := by
  unfold IsTextFile at h
  split_ifs at h with h0 hv
  · have : b = [] := List.length_eq_zero.1 h0
    subst this
    rfl
  · simpa using hv
  · simpa using hv

/-- C6: every byte sequence that `IsTextFile` classifies as text (result `true`) is valid
UTF-8 in the sense of Go's `utf8.Valid`. -/
theorem C6_text_is_valid_utf8 (b : Bytes) (h : IsTextFile b = true) : Valid b = true := by
  unfold IsTextFile at h
  split_ifs at h with h0 hv
  · have : b = [] := List.length_eq_zero.1 h0
    subst this
    rfl
  · simpa using hv
  · simpa using hv

theorem C6_text_is_valid_utf8_witness :
    IsTextFile [104, 105, 10] = true ∧ Valid [104, 105, 10] = true :=
  have h : IsTextFile [104, 105, 10] = true := by
    rw [IsTextFile_eq_sample _ (by decide) (by decide) (by decide)]
    decide
  ⟨h, C6_text_is_valid_utf8 [104, 105, 10] h⟩

/-- C7: for each of the nine fixed signatures `p` (NUL, UTF-16 LE and BE byte-order marks,
ELF, MZ, PK, PNG, JPEG, GIF) and every trailing byte sequence `t`, the empty one included,
`IsTextFile (p ++ t)` is `false` (binary), whether or not `p ++ t` is valid UTF-8. -/
theorem C7_signature_is_binary (p : Bytes)
    (hp : p ∈ ([[0x00], [0xFF, 0xFE], [0xFE, 0xFF], [0x7F, 0x45, 0x4C, 0x46], [0x4D, 0x5A],
      [0x50, 0x4B], [0x89, 0x50, 0x4E, 0x47], [0xFF, 0xD8, 0xFF], [0x47, 0x49, 0x46]] :
      List Bytes))
    (t : Bytes) : IsTextFile (p ++ t) = false := by
  have hmem : p ∈ binaryIndicators := hp
  have hne : p ≠ [] := by
    rintro rfl
    revert hp
    decide
  have hlen : (p ++ t).length ≠ 0 := by
    cases p with
    | nil => exact absurd rfl hne
    | cons a l => simp
  have hany : binaryIndicators.any (matchesIndicator (p ++ t)) = true := by
    rw [List.any_eq_true]
    exact ⟨p, hmem, (matchesIndicator_iff (p ++ t) p).2 (List.prefix_append p t)⟩
  unfold IsTextFile
  rw [if_neg hlen]
  by_cases hv : Valid (p ++ t) = true
  · simp [hv, hany]
  · simp [hv]

theorem C7_signature_is_binary_witness :
    IsTextFile ([0x4D, 0x5A] ++ [0x90, 0x00, 0x03]) = false ∧ IsTextFile ([0x47, 0x49, 0x46] ++ []) = false :=
  ⟨C7_signature_is_binary [0x4D, 0x5A] (by decide) [0x90, 0x00, 0x03],
   C7_signature_is_binary [0x47, 0x49, 0x46] (by decide) []⟩

/-- C8: for a non-empty, valid-UTF-8 byte sequence `b` that starts with none of the fixed
signatures, with `s = min 512 (length b)` and `c` the number of bytes among the first `s`
that are below 32 and are not 9, 10 or 13: `IsTextFile b` is `false` (binary) exactly when
`10 * c ≥ 3 * s` and `true` (text) exactly when `10 * c < 3 * s`; two such inputs that
agree on their first 512 bytes get the same result. -/
theorem C8_control_ratio_threshold (b : Bytes) (hne : b ≠ []) (hvalid : Valid b = true)
    (hsig : ∀ p ∈ binaryIndicators, ¬ p <+: b) :
    (IsTextFile b = false ↔
      3 * min 512 b.length ≤
        10 * ((b.take (min 512 b.length)).filter
          (fun x => decide (x < 32 ∧ x ≠ 9 ∧ x ≠ 10 ∧ x ≠ 13))).length) ∧
    (IsTextFile b = true ↔
      10 * ((b.take (min 512 b.length)).filter
          (fun x => decide (x < 32 ∧ x ≠ 9 ∧ x ≠ 10 ∧ x ≠ 13))).length
        < 3 * min 512 b.length) ∧
    (∀ b' : Bytes, b' ≠ [] → Valid b' = true → (∀ p ∈ binaryIndicators, ¬ p <+: b') →
      b'.take 512 = b.take 512 → IsTextFile b' = IsTextFile b) := by
  have hfun : (fun x => decide (x < 32 ∧ x ≠ 9 ∧ x ≠ 10 ∧ x ≠ 13)) = isControlByte := by
    funext x
    simp [isControlByte, Bool.decide_and, Bool.and_assoc]
  have htake : b.take (min 512 b.length) = b.take 512 := by
    rw [List.take_eq_take]
    simp
  have hlen : (b.take 512).length = min 512 b.length := List.length_take 512 b
  have hval := IsTextFile_eq_sample b hne hvalid hsig
  rw [hfun, htake, ← List.countP_eq_length_filter, ← hlen]
  refine ⟨?_, ?_, ?_⟩
  · rw [hval, decide_eq_false_iff_not, not_lt]
  · rw [hval, decide_eq_true_iff]
  · intro b' hne' hvalid' hsig' heq
    rw [hval, IsTextFile_eq_sample b' hne' hvalid' hsig', heq]

theorem C8_control_ratio_threshold_witness :
    ([65, 1, 1] ≠ ([] : Bytes) ∧ Valid [65, 1, 1] = true ∧
      (∀ p ∈ binaryIndicators, ¬ p <+: [65, 1, 1])) ∧
    IsTextFile [65, 1, 1] = false ∧ IsTextFile [65, 1, 66, 67] = true :=
  ⟨⟨by decide, by decide, by decide⟩,
   (C8_control_ratio_threshold [65, 1, 1] (by decide) (by decide) (by decide)).1.2 (by decide),
   (C8_control_ratio_threshold [65, 1, 66, 67] (by decide) (by decide) (by decide)).2.1.2
     (by decide)⟩

/-! ## `DetectLanguage` -/

theorem lookup_of_mem_languageMap (ext tag : Bytes) (h : (ext, tag) ∈ languageMap) :
    languageMap.lookup ext = some tag := by
  have hnd : (languageMap.map Prod.fst).Nodup := by decide
  have key : ∀ (l : List (Bytes × Bytes)), (l.map Prod.fst).Nodup → (ext, tag) ∈ l →
      l.lookup ext = some tag := by
    intro l
    induction l with
    | nil => intro _ hm; simp at hm
    | cons hd tl ih =>
      intro hnd hm
      obtain ⟨k, v⟩ := hd
      simp only [List.map_cons, List.nodup_cons] at hnd
      rcases List.mem_cons.1 hm with heq | hin
      · have hk : ext = k := (Prod.mk.inj heq).1
        have hv : tag = v := (Prod.mk.inj heq).2
        subst hk hv
        simp [List.lookup]
      · have hne : ext ≠ k := by
          rintro rfl
          exact hnd.1 (List.mem_map.2 ⟨(ext, tag), hin, rfl⟩)
        have hbeq : (ext == k) = false := by simpa using hne
        simp only [List.lookup, hbeq]
        exact ih hnd.2 hin
  exact key languageMap hnd h

theorem lookup_none_of_not_mem (ext : Bytes) (h : ∀ tag, (ext, tag) ∉ languageMap) :
    languageMap.lookup ext = none := by
  cases hl : languageMap.lookup ext with
  | none => rfl
  | some tag =>
    have key : ∀ (l : List (Bytes × Bytes)), l.lookup ext = some tag → (ext, tag) ∈ l := by
      intro l
      induction l with
      | nil => intro hm; simp [List.lookup] at hm
      | cons hd tl ih =>
        intro hm
        obtain ⟨k, v⟩ := hd
        by_cases hk : ext = k
        · subst hk
          simp [List.lookup] at hm
          simp [hm]
        · have hbeq : (ext == k) = false := by simpa using hk
          simp only [List.lookup, hbeq] at hm
          exact List.mem_cons_of_mem _ (ih hm)
    exact absurd (key languageMap hl) (h tag)

theorem HasPrefix_iff (s p : Bytes) : ( HasPrefix s p) = true ↔ p <+: s := by
  unfold HasPrefix
  rw [Bool.and_eq_true, decide_eq_true_iff, decide_eq_true_iff]
  constructor
  · rintro ⟨_, h⟩
    rw [← h]
    exact List.take_prefix _ _
  · intro h
    exact ⟨h.length_le, (List.prefix_iff_eq_take.1 h).symm⟩

theorem lowerByte_slash (c : Nat) : lowerByte c = 0x2F ↔ c = 0x2F := by
  unfold lowerByte
  split_ifs <;> omega

theorem lowerByte_dot (c : Nat) : lowerByte c = 0x2E ↔ c = 0x2E := by
  unfold lowerByte
  split_ifs <;> omega

theorem getD_map_lowerByte (path : Bytes) (i : Nat) :
    (path.map lowerByte).getD i 0 = lowerByte (path.getD i 0) := by
  have h0 : lowerByte 0 = 0 := by decide
  conv_lhs => rw [← h0]
  exact List.getD_map (l := path) 0 lowerByte

theorem IsPathSeparator_lowerByte (c : Nat) :
    IsPathSeparator (lowerByte c) = IsPathSeparator c := by
  unfold IsPathSeparator
  have := lowerByte_slash c
  by_cases hc : c = 0x2F
  · have h1 : lowerByte c = 0x2F := this.2 hc
    rw [h1, hc]
  · have h1 : lowerByte c ≠ 0x2F := fun h => hc (this.1 h)
    simp [hc, h1]

theorem extLoop_map_lowerByte (path : Bytes) :
    ∀ n, extLoop (path.map lowerByte) n = (extLoop path n).map lowerByte := by
  intro n
  induction n with
  | zero => simp [extLoop]
  | succ i ih =>
    simp only [extLoop, getD_map_lowerByte, IsPathSeparator_lowerByte, lowerByte_dot]
    split_ifs
    · rfl
    · rw [List.map_drop]
    · exact ih

theorem Ext_map_lowerByte (path : Bytes) :
    Ext (path.map lowerByte) = (Ext path).map lowerByte := by
  unfold Ext
  rw [List.length_map, extLoop_map_lowerByte]

theorem trimSlashLoop_map_lowerByte (path : Bytes) :
    ∀ n, trimSlashLoop (path.map lowerByte) n = trimSlashLoop path n := by
  intro n
  induction n with
  | zero => simp [trimSlashLoop]
  | succ i ih =>
    simp only [trimSlashLoop, getD_map_lowerByte, IsPathSeparator_lowerByte, ih]

theorem lastElementLoop_map_lowerByte (path : Bytes) :
    ∀ n, lastElementLoop (path.map lowerByte) n = lastElementLoop path n := by
  intro n
  induction n with
  | zero => simp [lastElementLoop]
  | succ i ih =>
    simp only [lastElementLoop, getD_map_lowerByte, IsPathSeparator_lowerByte, ih]

theorem Base_map_lowerByte (path : Bytes) :
    Base (path.map lowerByte) = (Base path).map lowerByte := by
  unfold Base
  by_cases hp : path = []
  · subst hp
    decide
  · have hp' : path.map lowerByte ≠ [] := by simpa using hp
    rw [if_neg hp, if_neg hp']
    simp only [List.length_map, trimSlashLoop_map_lowerByte, ← List.map_take,
      lastElementLoop_map_lowerByte, ← List.map_drop, List.map_eq_nil_iff]
    split_ifs
    · decide
    · rfl

theorem extLoop_ascii (path : Bytes) (h : ∀ c ∈ path, c < 0x80) :
    ∀ n, ∀ c ∈ extLoop path n, c < 0x80 := by
  intro n
  induction n with
  | zero => intro c hc; simp [extLoop] at hc
  | succ i ih =>
    intro c hc
    simp only [extLoop] at hc
    split_ifs at hc
    · simp at hc
    · exact h c (List.mem_of_mem_drop hc)
    · exact ih c hc

theorem Base_ascii (path : Bytes) (h : ∀ c ∈ path, c < 0x80) : ∀ c ∈ Base path, c < 0x80 := by
  have hdot : ∀ c ∈ lit ".", c < 0x80 := by decide
  have hslash : ∀ c ∈ lit "/", c < 0x80 := by decide
  intro c hc
  unfold Base at hc
  simp only at hc
  split_ifs at hc with h1 h2
  · exact hdot c hc
  · exact hslash c hc
  · exact h c (List.mem_of_mem_take (List.mem_of_mem_drop hc))

theorem ToLower_ascii (mapLower : Bytes → Bytes) (s : Bytes) (h : ∀ c ∈ s, c < 0x80) :
    ToLower mapLower s = s.map lowerByte := by
  unfold ToLower
  rw [if_pos]
  rw [List.all_eq_true]
  intro c hc
  simpa using h c hc

/-- On a file name of ASCII bytes the result is computed from the lower-cased name. -/
theorem DetectLanguage_ascii (mapLower : Bytes → Bytes) (f : Bytes) (h : ∀ c ∈ f, c < 0x80) :
    DetectLanguage mapLower f =
      match languageMap.lookup (Ext (f.map lowerByte)) with
      | some lang => lang
      | none =>
        if Base (f.map lowerByte) = lit "dockerfile" ∨
            ( HasPrefix (Base (f.map lowerByte)) (lit "dockerfile.")) = true then lit "dockerfile"
        else if Base (f.map lowerByte) = lit "makefile" ∨
            ( HasPrefix (Base (f.map lowerByte)) (lit "makefile.")) = true then lit "makefile"
        else lit "unknown" := by
  unfold DetectLanguage
  simp only
  rw [ToLower_ascii mapLower (Ext f) (extLoop_ascii f h _),
    ToLower_ascii mapLower (Base f) (Base_ascii f h),
    Ext_map_lowerByte, Base_map_lowerByte]

/-- C10: for every file name `f`: when the lower-cased final extension of `f` is a key of
the extension table, `DetectLanguage f` is that key's tag; otherwise it is `dockerfile`
when the lower-cased base name is `dockerfile` or starts with `dockerfile.`, else
`makefile` when the lower-cased base name is `makefile` or starts with `makefile.`, else
`unknown`. The letter case of an ASCII name does not matter (two ASCII names with the same
lower-casing get the same tag; `Main.go` and `MAIN.GO` give `go`). -/
theorem C10_detect_language (mapLower : Bytes → Bytes) (f : Bytes) :
    (∀ tag, (ToLower mapLower (Ext f), tag) ∈ languageMap → DetectLanguage mapLower f = tag) ∧
    ((∀ tag, (ToLower mapLower (Ext f), tag) ∉ languageMap) →
      ((ToLower mapLower (Base f) = lit "dockerfile" ∨
          lit "dockerfile." <+: ToLower mapLower (Base f)) →
        DetectLanguage mapLower f = lit "dockerfile") ∧
      (¬ (ToLower mapLower (Base f) = lit "dockerfile" ∨
          lit "dockerfile." <+: ToLower mapLower (Base f)) →
        (ToLower mapLower (Base f) = lit "makefile" ∨
          lit "makefile." <+: ToLower mapLower (Base f)) →
        DetectLanguage mapLower f = lit "makefile") ∧
      (¬ (ToLower mapLower (Base f) = lit "dockerfile" ∨
          lit "dockerfile." <+: ToLower mapLower (Base f)) →
        ¬ (ToLower mapLower (Base f) = lit "makefile" ∨
          lit "makefile." <+: ToLower mapLower (Base f)) →
        DetectLanguage mapLower f = lit "unknown")) ∧
    (∀ g : Bytes, (∀ c ∈ f, c < 0x80) → (∀ c ∈ g, c < 0x80) →
      f.map lowerByte = g.map lowerByte → DetectLanguage mapLower f = DetectLanguage mapLower g) ∧
    DetectLanguage mapLower (lit "Main.go") = lit "go" ∧
    DetectLanguage mapLower (lit "MAIN.GO") = lit "go" ∧
    DetectLanguage mapLower (lit "Dockerfile") = lit "dockerfile" ∧
    DetectLanguage mapLower (lit "script.unknownext") = lit "unknown" := by
  refine ⟨?_, ?_, ?_, ?_, ?_, ?_, ?_⟩
  · intro tag htag
    unfold DetectLanguage
    simp only [lookup_of_mem_languageMap _ _ htag]
  · intro hnone
    have hl := lookup_none_of_not_mem _ hnone
    refine ⟨?_, ?_, ?_⟩
    · intro hd
      unfold DetectLanguage
      simp only [hl, HasPrefix_iff]
      rw [if_pos hd]
    · intro hd hm
      unfold DetectLanguage
      simp only [hl, HasPrefix_iff]
      rw [if_neg hd, if_pos hm]
    · intro hd hm
      unfold DetectLanguage
      simp only [hl, HasPrefix_iff]
      rw [if_neg hd, if_neg hm]
  · intro g hf hg hfg
    rw [DetectLanguage_ascii mapLower f hf, DetectLanguage_ascii mapLower g hg, hfg]
  · rw [DetectLanguage_ascii mapLower _ (by decide)]; decide
  · rw [DetectLanguage_ascii mapLower _ (by decide)]; decide
  · rw [DetectLanguage_ascii mapLower _ (by decide)]; decide
  · rw [DetectLanguage_ascii mapLower _ (by decide)]; decide

/-! ## `StartAnalysis` -/

theorem pendingTasks_length (pid : Nat) :
    ∀ (types : List String) (id : Nat), (pendingTasks pid id types).length = types.length := by
  intro types
  induction types with
  | nil => intro id; rfl
  | cons t ts ih => intro id; simp [pendingTasks, ih]

theorem pendingTasks_getElem? (pid : Nat) :
    ∀ (types : List String) (id i : Nat) (hi : i < types.length),
      (pendingTasks pid id types)[i]? = some (pendingTask pid (id + i) types[i]) := by
  intro types
  induction types with
  | nil => intro id i hi; simp at hi
  | cons t ts ih =>
    intro id i hi
    cases i with
    | zero => simp [pendingTasks]
    | succ j =>
      simp only [List.length_cons, Nat.add_lt_add_iff_right] at hi
      simp only [pendingTasks, List.getElem?_cons_succ, List.getElem_cons_succ]
      rw [ih (id + 1) j hi]
      congr 2
      omega

theorem pendingTasks_getElem?_of (pid : Nat) (types : List String) (id i : Nat) (t : String)
    (ht : types[i]? = some t) :
    (pendingTasks pid id types)[i]? = some
      { ID := id + i, ProjectID := pid, FileID := none, Type_ := t, Status := "pending",
        Result := "", Metadata := "", Deleted := false } := by
  obtain ⟨hi, rfl⟩ := List.getElem?_eq_some_iff.1 ht
  rw [pendingTasks_getElem? pid types id i hi]
  rfl

theorem pendingTasks_take (pid : Nat) :
    ∀ (types : List String) (id k : Nat),
      pendingTasks pid id (types.take k) = (pendingTasks pid id types).take k := by
  intro types
  induction types with
  | nil => intro id k; simp [pendingTasks]
  | cons t ts ih =>
    intro id k
    cases k with
    | zero => simp [pendingTasks]
    | succ j => simp [pendingTasks, ih]

theorem pendingTasks_ids (pid : Nat) :
    ∀ (types : List String) (id : Nat),
      (pendingTasks pid id types).map (fun a => a.ID) = List.range' id types.length := by
  intro types
  induction types with
  | nil => intro id; rfl
  | cons t ts ih => intro id; simp [pendingTasks, pendingTask, ih, List.range'_succ]

theorem pendingTasks_descriptor (pid : Nat) :
    ∀ (types : List String) (id : Nat),
      (pendingTasks pid id types).map
          (fun a => ({ analysis_id := a.ID, project_id := pid, type_ := a.Type_ } : TaskData)) =
        (pendingTasks pid id types).map descriptor := by
  intro types
  induction types with
  | nil => intro id; rfl
  | cons t ts ih => intro id; simp [pendingTasks, pendingTask, descriptor, ih]

/-- The loop of `StartAnalysis` when every insert and every push of the batch succeeds. -/
theorem analysisLoop_ok (env : AnalysisEnv) (pid : Nat) :
    ∀ (types : List String) (i : Nat) (w : World) (created : List Analysis),
      (∀ j, j < types.length → env.createError (i + j) = false ∧ env.pushError (i + j) = false) →
      analysisLoop env pid types i w created =
        (⟨{ w.db with
              analyses := w.db.analyses ++ pendingTasks pid w.db.nextAnalysisID types,
              nextAnalysisID := w.db.nextAnalysisID + types.length },
          ((pendingTasks pid w.db.nextAnalysisID types).map descriptor).reverse ++ w.queue⟩,
         .ok (created ++ pendingTasks pid w.db.nextAnalysisID types)) := by
  intro types
  induction types with
  | nil =>
    intro i w created _
    simp [analysisLoop, pendingTasks]
  | cons t ts ih =>
    intro i w created h
    have h0 := h 0 (by simp)
    simp only [Nat.add_zero] at h0
    have hrest : ∀ j, j < ts.length →
        env.createError (i + 1 + j) = false ∧ env.pushError (i + 1 + j) = false := by
      intro j hj
      have := h (j + 1) (by simpa using hj)
      rwa [show i + (j + 1) = i + 1 + j by omega] at this
    simp only [analysisLoop, h0.1, h0.2, Bool.false_eq_true, if_false]
    rw [ih (i + 1) _ _ hrest]
    simp [Store.createAnalysis, World.LPush, pendingTasks, pendingTask, descriptor,
      Nat.add_assoc, Nat.add_comm 1]

/-- The loop of `StartAnalysis` when the push of iteration `i + j` is the first failure. -/
theorem analysisLoop_push_fails (env : AnalysisEnv) (pid : Nat) :
    ∀ (types : List String) (j i : Nat) (w : World) (created : List Analysis),
      j < types.length →
      (∀ m, m ≤ j → env.createError (i + m) = false) →
      (∀ m, m < j → env.pushError (i + m) = false) →
      env.pushError (i + j) = true →
      analysisLoop env pid types i w created =
        (⟨{ w.db with
              analyses := w.db.analyses ++ pendingTasks pid w.db.nextAnalysisID (types.take (j + 1)),
              nextAnalysisID := w.db.nextAnalysisID + (j + 1) },
          ((pendingTasks pid w.db.nextAnalysisID (types.take j)).map descriptor).reverse
            ++ w.queue⟩,
         .error (Reply.error 500 "Failed to queue analysis task")) := by
  intro types
  induction types with
  | nil => intro j i w created hj; simp at hj
  | cons t ts ih =>
    intro j i w created hj hc hp hfail
    have hc0 := hc 0 (Nat.zero_le _)
    simp only [Nat.add_zero] at hc0
    cases j with
    | zero =>
      simp only [Nat.add_zero] at hfail
      simp [analysisLoop, hc0, hfail, Store.createAnalysis, pendingTasks, pendingTask]
    | succ j' =>
      have hp0 := hp 0 (Nat.succ_pos _)
      simp only [Nat.add_zero] at hp0
      simp only [List.length_cons, Nat.add_lt_add_iff_right] at hj
      simp only [analysisLoop, hc0, hp0, Bool.false_eq_true, if_false]
      rw [ih j' (i + 1) _ _ hj
        (fun m hm => by
          have := hc (m + 1) (by omega)
          rwa [show i + (m + 1) = i + 1 + m by omega] at this)
        (fun m hm => by
          have := hp (m + 1) (by omega)
          rwa [show i + (m + 1) = i + 1 + m by omega] at this)
        (by rwa [show i + (j' + 1) = i + 1 + j' by omega] at hfail)]
      simp [Store.createAnalysis, World.LPush, pendingTasks, pendingTask, descriptor,
        Nat.add_assoc, Nat.add_comm 1]

theorem requiredFailures_nil (pid : Nat) (types : List String) (hpid : pid ≠ 0) :
    requiredFailures { ProjectID := pid, Types := some types } = [] := by
  simp [requiredFailures, hpid]

theorem firstProject_ID (db : Store) (pid : Nat) (project : Project)
    (h : db.firstProject pid = some project) : project.ID = pid := by
  unfold Store.firstProject at h
  have := List.find?_some h
  simp only [Bool.and_eq_true, beq_iff_eq] at this
  exact this.1

/-- C1: for a live project (its id is non-zero, as every id the store assigns) with at
least one live file and a list of type tags `t1..tn`, when the project query, every insert
and every push succeed, `StartAnalysis` answers 201 with `n` tasks in the order of the
tags; the `i`-th has the requested `project_id`, type `ti`, status `pending`, no file
binding and the `i`-th id handed out by the store, so the ids are pairwise distinct;
exactly these rows are added to the table; and exactly the `n` descriptors
`{analysis_id, project_id, type}` of these tasks are pushed, in this order (the Redis list
holds the latest push at its left end). -/
theorem C1_start_analysis_creates_tasks (env : AnalysisEnv) (w : World) (pid : Nat)
    (types : List String) (project : Project)
    (hpid : pid ≠ 0) (hlookup : env.lookupError = false)
    (hlive : w.db.firstProject pid = some project)
    (hfiles : w.db.preloadFiles pid ≠ [])
    (hok : ∀ i, i < types.length → env.createError i = false ∧ env.pushError i = false) :
    ∃ tasks : List Analysis,
      (StartAnalysis env w { ProjectID := pid, Types := some types }).2 =
        Reply.ok 201 "Analysis started successfully" tasks ∧
      (StartAnalysis env w { ProjectID := pid, Types := some types }).1.db.analyses =
        w.db.analyses ++ tasks ∧
      tasks.length = types.length ∧
      (∀ i t, types[i]? = some t → tasks[i]? = some
        ({ ID := w.db.nextAnalysisID + i, ProjectID := pid, FileID := none, Type_ := t,
           Status := "pending", Result := "", Metadata := "", Deleted := false } : Analysis)) ∧
      (tasks.map (fun a => a.ID)).Nodup ∧
      (StartAnalysis env w { ProjectID := pid, Types := some types }).1.queue =
        (tasks.map (fun a =>
          ({ analysis_id := a.ID, project_id := pid, type_ := a.Type_ } : TaskData))).reverse
          ++ w.queue := by
  have hid := firstProject_ID _ _ _ hlive
  have hlen : ¬ (w.db.preloadFiles project.ID).length = 0 := by
    rw [hid]
    simpa using hfiles
  have hloop := analysisLoop_ok env pid types 0 w []
    (fun j hj => by simpa using hok j hj)
  refine ⟨pendingTasks pid w.db.nextAnalysisID types, ?_, ?_, pendingTasks_length _ _ _,
    fun i t ht => pendingTasks_getElem?_of pid types _ i t ht, ?_, ?_⟩
  · unfold StartAnalysis
    simp only [requiredFailures_nil pid types hpid, hlookup, hlive, hlen, Option.getD_some,
      hloop, ne_eq, not_true_eq_false, if_false, Bool.false_eq_true, List.nil_append]
  · unfold StartAnalysis
    simp only [requiredFailures_nil pid types hpid, hlookup, hlive, hlen, Option.getD_some,
      hloop, ne_eq, not_true_eq_false, if_false, Bool.false_eq_true, List.nil_append]
    split_ifs <;> simp [Store.updateProjectStatus]
  · rw [pendingTasks_ids]
    exact List.nodup_range' _ _
  · unfold StartAnalysis
    simp only [requiredFailures_nil pid types hpid, hlookup, hlive, hlen, Option.getD_some,
      hloop, ne_eq, not_true_eq_false, if_false, Bool.false_eq_true, List.nil_append]
    rw [pendingTasks_descriptor]
    split_ifs <;> rfl

theorem C1_start_analysis_creates_tasks_witness :
    ∃ tasks : List Analysis,
      (StartAnalysis quietEnv exampleWorld
        { ProjectID := 1, Types := some ["code_analysis", "documentation"] }).2 =
        Reply.ok 201 "Analysis started successfully" tasks ∧
      (StartAnalysis quietEnv exampleWorld
        { ProjectID := 1, Types := some ["code_analysis", "documentation"] }).1.db.analyses =
        exampleWorld.db.analyses ++ tasks ∧
      tasks.length = ["code_analysis", "documentation"].length ∧
      (∀ i t, ["code_analysis", "documentation"][i]? = some t → tasks[i]? = some
        ({ ID := exampleWorld.db.nextAnalysisID + i, ProjectID := 1, FileID := none, Type_ := t,
           Status := "pending", Result := "", Metadata := "", Deleted := false } : Analysis)) ∧
      (tasks.map (fun a => a.ID)).Nodup ∧
      (StartAnalysis quietEnv exampleWorld
        { ProjectID := 1, Types := some ["code_analysis", "documentation"] }).1.queue =
        (tasks.map (fun a =>
          ({ analysis_id := a.ID, project_id := 1, type_ := a.Type_ } : TaskData))).reverse
          ++ exampleWorld.queue :=
  C1_start_analysis_creates_tasks quietEnv exampleWorld 1 ["code_analysis", "documentation"]
    { ID := 1, Name := "demo", Description := "", UserID := 1, Status := "pending",
      Deleted := false }
    (by decide) rfl (by decide) (by decide) (fun _ _ => ⟨rfl, rfl⟩)

/-- C2: for a batch of `n` type tags on a live project with files and every `k` with
`1 ≤ k ≤ n`: when the store accepts every insert and the queue accepts the first `k - 1`
pushes but rejects the `k`-th, `StartAnalysis` answers 500 with "Failed to queue analysis
task"; the tasks for the types `1..k` are in the table with status `pending` (the `k`-th
one has no descriptor); the queue gained exactly the descriptors of the first `k - 1`
tasks; no row exists for the types `k+1..n`; and the projects table, so the project's
status, is unchanged. -/
theorem C2_queue_failure_leaves_pending (env : AnalysisEnv) (w : World) (pid : Nat)
    (types : List String) (project : Project) (k : Nat)
    (hpid : pid ≠ 0) (hlookup : env.lookupError = false)
    (hlive : w.db.firstProject pid = some project)
    (hfiles : w.db.preloadFiles pid ≠ [])
    (hk1 : 1 ≤ k) (hkn : k ≤ types.length)
    (hcreate : ∀ i, i < types.length → env.createError i = false)
    (hpush : ∀ i, i < k - 1 → env.pushError i = false)
    (hfail : env.pushError (k - 1) = true) :
    ∃ tasks : List Analysis,
      (StartAnalysis env w { ProjectID := pid, Types := some types }).2 =
        Reply.error 500 "Failed to queue analysis task" ∧
      (StartAnalysis env w { ProjectID := pid, Types := some types }).1.db.analyses =
        w.db.analyses ++ tasks ∧
      tasks.length = k ∧
      (∀ i t, i < k → types[i]? = some t → tasks[i]? = some
        ({ ID := w.db.nextAnalysisID + i, ProjectID := pid, FileID := none, Type_ := t,
           Status := "pending", Result := "", Metadata := "", Deleted := false } : Analysis)) ∧
      (StartAnalysis env w { ProjectID := pid, Types := some types }).1.queue =
        ((tasks.take (k - 1)).map (fun a =>
          ({ analysis_id := a.ID, project_id := pid, type_ := a.Type_ } : TaskData))).reverse
          ++ w.queue ∧
      (StartAnalysis env w { ProjectID := pid, Types := some types }).1.db.projects =
        w.db.projects := by
  have hid := firstProject_ID _ _ _ hlive
  have hlen : ¬ (w.db.preloadFiles project.ID).length = 0 := by
    rw [hid]
    simpa using hfiles
  obtain ⟨j, rfl⟩ : ∃ j, k = j + 1 := ⟨k - 1, by omega⟩
  simp only [Nat.add_sub_cancel] at hpush hfail ⊢
  have hloop := analysisLoop_push_fails env pid types j 0 w [] (by omega)
    (fun m hm => by simpa using hcreate m (by omega))
    (fun m hm => by simpa using hpush m hm)
    (by simpa using hfail)
  have htake : (pendingTasks pid w.db.nextAnalysisID (types.take (j + 1))).take j =
      pendingTasks pid w.db.nextAnalysisID (types.take j) := by
    rw [← pendingTasks_take, List.take_take, Nat.min_eq_left (Nat.le_succ j)]
  refine ⟨pendingTasks pid w.db.nextAnalysisID (types.take (j + 1)), ?_, ?_, ?_, ?_, ?_, ?_⟩
  · unfold StartAnalysis
    simp only [requiredFailures_nil pid types hpid, hlookup, hlive, hlen, Option.getD_some,
      hloop, ne_eq, not_true_eq_false, if_false, Bool.false_eq_true]
  · unfold StartAnalysis
    simp only [requiredFailures_nil pid types hpid, hlookup, hlive, hlen, Option.getD_some,
      hloop, ne_eq, not_true_eq_false, if_false, Bool.false_eq_true]
  · rw [pendingTasks_length, List.length_take]
    omega
  · intro i t hi ht
    apply pendingTasks_getElem?_of
    rw [List.getElem?_take_of_lt hi]
    exact ht
  · unfold StartAnalysis
    simp only [requiredFailures_nil pid types hpid, hlookup, hlive, hlen, Option.getD_some,
      hloop, ne_eq, not_true_eq_false, if_false, Bool.false_eq_true]
    rw [htake, pendingTasks_descriptor]
  · unfold StartAnalysis
    simp only [requiredFailures_nil pid types hpid, hlookup, hlive, hlen, Option.getD_some,
      hloop, ne_eq, not_true_eq_false, if_false, Bool.false_eq_true]

theorem C2_queue_failure_leaves_pending_witness :
    ∃ tasks : List Analysis,
      (StartAnalysis (pushFailsAt 1) exampleWorld
        { ProjectID := 1, Types := some ["code_analysis", "documentation", "dependency_map"] }).2 =
        Reply.error 500 "Failed to queue analysis task" ∧
      (StartAnalysis (pushFailsAt 1) exampleWorld
        { ProjectID := 1, Types := some ["code_analysis", "documentation", "dependency_map"]
          }).1.db.analyses = exampleWorld.db.analyses ++ tasks ∧
      tasks.length = 2 ∧
      (∀ i t, i < 2 → ["code_analysis", "documentation", "dependency_map"][i]? = some t →
        tasks[i]? = some
        ({ ID := exampleWorld.db.nextAnalysisID + i, ProjectID := 1, FileID := none, Type_ := t,
           Status := "pending", Result := "", Metadata := "", Deleted := false } : Analysis)) ∧
      (StartAnalysis (pushFailsAt 1) exampleWorld
        { ProjectID := 1, Types := some ["code_analysis", "documentation", "dependency_map"]
          }).1.queue =
        ((tasks.take (2 - 1)).map (fun a =>
          ({ analysis_id := a.ID, project_id := 1, type_ := a.Type_ } : TaskData))).reverse
          ++ exampleWorld.queue ∧
      (StartAnalysis (pushFailsAt 1) exampleWorld
        { ProjectID := 1, Types := some ["code_analysis", "documentation", "dependency_map"]
          }).1.db.projects = exampleWorld.db.projects :=
  C2_queue_failure_leaves_pending (pushFailsAt 1) exampleWorld 1
    ["code_analysis", "documentation", "dependency_map"]
    { ID := 1, Name := "demo", Description := "", UserID := 1, Status := "pending",
      Deleted := false } 2
    (by decide) rfl (by decide) (by decide) (by decide) (by decide) (fun _ _ => rfl)
    (by decide) (by decide)

/-- C3 (evaluation of the code): a request whose `types` is the empty JSON array passes
the `required` binding; on a live project with files `StartAnalysis` then answers 201 with
no task and sets the project's status to `analyzing`. Only a request whose `types` is
absent or `null` is rejected with 400 and leaves the state unchanged. -/
theorem C3_empty_types_is_accepted :
    StartAnalysis quietEnv exampleWorld { ProjectID := 1, Types := some [] } =
      ({ db := exampleStore.updateProjectStatus 1 "analyzing", queue := [] },
        Reply.ok 201 "Analysis started successfully" []) ∧
    (exampleStore.projects.map (fun p => p.Status) = ["pending"] ∧
      (StartAnalysis quietEnv exampleWorld { ProjectID := 1, Types := some [] }).1.db.projects.map
        (fun p => p.Status) = ["analyzing"]) ∧
    ((StartAnalysis quietEnv exampleWorld { ProjectID := 1, Types := none }).1 = exampleWorld ∧
      (StartAnalysis quietEnv exampleWorld { ProjectID := 1, Types := none }).2.status = 400) := by
  decide

/-- C4: for an existing project (its id is non-zero, as every id the store assigns) with
no live file and every list of types, when the project query succeeds `StartAnalysis`
answers 400 with "No files found in project" and the state (tasks, queue, project status)
is exactly as before the call. -/
theorem C4_no_files_invalid_request (env : AnalysisEnv) (w : World) (pid : Nat)
    (types : List String) (project : Project)
    (hpid : pid ≠ 0) (hlookup : env.lookupError = false)
    (hlive : w.db.firstProject pid = some project)
    (hfiles : w.db.preloadFiles pid = []) :
    StartAnalysis env w { ProjectID := pid, Types := some types } =
      (w, Reply.error 400 "No files found in project") := by
  have hid := firstProject_ID _ _ _ hlive
  have hlen : (w.db.preloadFiles project.ID).length = 0 := by
    rw [hid, hfiles]
    rfl
  unfold StartAnalysis
  simp only [requiredFailures_nil pid types hpid, hlookup, hlive, hlen, ne_eq,
    not_true_eq_false, if_false, Bool.false_eq_true, if_true]

theorem C4_no_files_invalid_request_witness :
    StartAnalysis quietEnv emptyProjectWorld { ProjectID := 1, Types := some ["code_analysis"] } =
      (emptyProjectWorld, Reply.error 400 "No files found in project") :=
  C4_no_files_invalid_request quietEnv emptyProjectWorld 1 ["code_analysis"]
    { ID := 1, Name := "demo", Description := "", UserID := 1, Status := "pending",
      Deleted := false }
    (by decide) rfl (by decide) (by decide)

theorem firstProject_deleteProject (db : Store) (id : Nat) :
    (db.deleteProject id).firstProject id = none := by
  unfold Store.firstProject Store.deleteProject
  simp only
  rw [List.find?_eq_none]
  intro p hp
  rw [List.mem_map] at hp
  obtain ⟨q, _, rfl⟩ := hp
  by_cases hq : q.ID = id ∧ q.Deleted = false
  · simp [hq]
  · rw [if_neg hq]
    rw [not_and_or] at hq
    rcases hq with h | h
    · simp [h]
    · simp [h]

/-- C5 as stated fails: project id 0 resolves to no project, yet the request is answered
400 by the request binding, not 404. -/
theorem C5_project_id_zero_is_bad_request :
    exampleWorld.db.firstProject 0 = none ∧
    (StartAnalysis quietEnv exampleWorld
      { ProjectID := 0, Types := some ["code_analysis"] }).2.status = 400 ∧
    (StartAnalysis quietEnv exampleWorld
      { ProjectID := 0, Types := some ["code_analysis"] }).2.status ≠ 404 := by
  decide

/-- C5 (amended): for every non-zero project id that does not resolve to a live project
and every list of types, when the project query itself does not fail, `StartAnalysis`
answers 404 "Project not found" and leaves tasks and queue untouched; this is the case in
particular after `DeleteProject` soft-deleted the project, whatever file and analysis rows
still reference the id (the delete leaves them in place). A project id of 0 is answered
400 by the request binding, also without any change of state. -/
theorem C5_missing_project_not_found (env : AnalysisEnv) (w : World) (pid : Nat)
    (types : List String) (hpid : pid ≠ 0) (hlookup : env.lookupError = false) :
    (w.db.firstProject pid = none →
      StartAnalysis env w { ProjectID := pid, Types := some types } =
        (w, Reply.error 404 "Project not found")) ∧
    (∀ idParam : Bytes, ParseUint idParam = some pid →
      (DeleteProject false w.db idParam).2 = Reply.ok 200 "Project deleted successfully" () ∧
      (DeleteProject false w.db idParam).1.files = w.db.files ∧
      (DeleteProject false w.db idParam).1.analyses = w.db.analyses ∧
      StartAnalysis env { w with db := (DeleteProject false w.db idParam).1 }
          { ProjectID := pid, Types := some types } =
        ({ w with db := (DeleteProject false w.db idParam).1 },
          Reply.error 404 "Project not found")) ∧
    StartAnalysis env w { ProjectID := 0, Types := some types } =
      (w, Reply.error 400 (env.bindErrorText ["ProjectID"])) := by
  have h404 : ∀ w' : World, w'.db.firstProject pid = none →
      StartAnalysis env w' { ProjectID := pid, Types := some types } =
        (w', Reply.error 404 "Project not found") := by
    intro w' hnone
    unfold StartAnalysis
    simp only [requiredFailures_nil pid types hpid, hlookup, hnone, ne_eq,
      not_true_eq_false, if_false, Bool.false_eq_true]
  refine ⟨h404 w, ?_, ?_⟩
  · intro idParam hparse
    have hdel : DeleteProject false w.db idParam =
        (w.db.deleteProject pid, Reply.ok 200 "Project deleted successfully" ()) := by
      simp [DeleteProject, hparse]
    rw [hdel]
    refine ⟨rfl, rfl, rfl, ?_⟩
    exact h404 _ (firstProject_deleteProject w.db pid)
  · simp [StartAnalysis, requiredFailures]

theorem C5_missing_project_not_found_witness :
    StartAnalysis quietEnv exampleWorld { ProjectID := 7, Types := some ["documentation"] } =
      (exampleWorld, Reply.error 404 "Project not found") :=
  (C5_missing_project_not_found quietEnv exampleWorld 7 ["documentation"] (by decide) rfl).1
    (by decide)

/-! ## `UploadFiles` -/

/-- Reading back the path that was just written returns the written bytes when they are
text and the empty string when they are binary. -/
theorem readFileContent_after_save (fs : FileSystem) (savePath data : Bytes) :
    readFileContent ((savePath, data) :: fs) false savePath =
      .ok (if IsTextFile data = true then data else []) := by
  simp only [readFileContent, Bool.false_eq_true, if_false, List.lookup, beq_self_eq_true]
  split_ifs <;> rfl

/-- Invariant of the upload loop: the rows it adds to the files table are the rows it
reports, each comes from one uploaded part whose content it stores as classified, and an
early return carries an error answer. -/
theorem uploadLoop_content (env : UploadEnv) (projectID : Nat) (projectUploadPath : Bytes) :
    ∀ (files : List UploadedFile) (i : Nat) (w : UploadWorld) (acc : List File),
      ∃ added : List File,
        (uploadLoop env projectID projectUploadPath files i w acc).1.db.files =
          w.db.files ++ added ∧
        (∀ out, (uploadLoop env projectID projectUploadPath files i w acc).2 = .ok out →
          out = acc ++ added) ∧
        (∀ reply, (uploadLoop env projectID projectUploadPath files i w acc).2 = .error reply →
          ∃ status text, reply = Reply.error status text) ∧
        ∀ r ∈ added, ∃ (k : Nat) (file : UploadedFile), files[k]? = some file ∧
          r.Name = Base file.Filename ∧
          r.Content =
            if env.readError (i + k) = false ∧ IsTextFile file.data = true then file.data
            else [] := by
  intro files
  induction files with
  | nil =>
    intro i w acc
    exact ⟨[], by simp [uploadLoop], by simp [uploadLoop], by simp [uploadLoop], by simp⟩
  | cons file rest ih =>
    intro i w acc
    have shift : ∀ (w' : UploadWorld) (acc' : List File) (pre : List File),
        w'.db.files = w.db.files ++ pre →
        acc' = acc ++ pre →
        (∀ r ∈ pre, r.Name = Base file.Filename ∧
          r.Content =
            if env.readError i = false ∧ IsTextFile file.data = true then file.data else []) →
        ∃ added : List File,
          (uploadLoop env projectID projectUploadPath rest (i + 1) w' acc').1.db.files =
            w.db.files ++ added ∧
          (∀ out, (uploadLoop env projectID projectUploadPath rest (i + 1) w' acc').2 = .ok out →
            out = acc ++ added) ∧
          (∀ reply,
            (uploadLoop env projectID projectUploadPath rest (i + 1) w' acc').2 = .error reply →
            ∃ status text, reply = Reply.error status text) ∧
          ∀ r ∈ added, ∃ (k : Nat) (f : UploadedFile), (file :: rest)[k]? = some f ∧
            r.Name = Base f.Filename ∧
            r.Content =
              if env.readError (i + k) = false ∧ IsTextFile f.data = true then f.data
              else [] := by
      intro w' acc' pre hw hacc hpre
      obtain ⟨added, h1, h2, h4, h3⟩ := ih (i + 1) w' acc'
      refine ⟨pre ++ added, ?_, ?_, h4, ?_⟩
      · rw [h1, hw, List.append_assoc]
      · intro out hout
        rw [h2 out hout, hacc, List.append_assoc]
      · intro r hr
        rcases List.mem_append.1 hr with hr | hr
        · exact ⟨0, file, by simp, by simpa using hpre r hr⟩
        · obtain ⟨k, f, hk, hn, hc⟩ := h3 r hr
          refine ⟨k + 1, f, by simpa using hk, hn, ?_⟩
          rw [hc, show i + 1 + k = i + (k + 1) by omega]
    unfold uploadLoop
    simp only
    split_ifs with hskip hsave hcreate
    · exact shift w acc [] (by simp) (by simp) (by simp)
    · exact ⟨[], by simp, by simp, by simp, by simp⟩
    · exact ⟨[], by simp, by simp, by simp, by simp⟩
    · refine shift _ _ [_] rfl rfl ?_
      intro r hr
      rw [List.mem_singleton] at hr
      subst hr
      refine ⟨rfl, ?_⟩
      simp only [Store.createFile]
      by_cases hread : env.readError i = true
      · simp [readFileContent, hread]
      · have hread' : env.readError i = false := by simpa using hread
        rw [hread', readFileContent_after_save]
        by_cases htext : IsTextFile file.data = true <;> simp [htext]

/-- Either `UploadFiles` returns early with an error answer and the state it was given, or
it runs the upload loop on the parts of the form. -/
theorem UploadFiles_cases (env : UploadEnv) (w : UploadWorld) (form : UploadForm) :
    (∃ status text, UploadFiles env w form = (w, Reply.error status text)) ∨
    (∃ (projectID : Nat) (path : Bytes) (files : List UploadedFile),
      form.files = some files ∧
      UploadFiles env w form =
        match uploadLoop env projectID path files 0 w [] with
        | (w1, .error reply) => (w1, reply)
        | (w1, .ok uploadedFiles) =>
          (w1, Reply.ok 200 "Files uploaded successfully" uploadedFiles)) := by
  unfold UploadFiles
  by_cases h1 : form.project_id = []
  · rw [if_pos h1]
    exact Or.inl ⟨_, _, rfl⟩
  rw [if_neg h1]
  cases hparse : ParseUint form.project_id with
  | none => exact Or.inl ⟨_, _, rfl⟩
  | some projectID =>
    simp only
    by_cases h2 : env.lookupError = true
    · rw [if_pos h2]
      exact Or.inl ⟨_, _, rfl⟩
    rw [if_neg h2]
    cases hproj : w.db.firstProject projectID with
    | none => exact Or.inl ⟨_, _, rfl⟩
    | some project =>
      cases hfiles : form.files with
      | none => exact Or.inl ⟨_, _, rfl⟩
      | some files =>
        simp only
        by_cases h3 : files.length = 0
        · rw [if_pos h3]
          exact Or.inl ⟨_, _, rfl⟩
        rw [if_neg h3]
        by_cases h4 : env.mkdirError = true
        · rw [if_pos h4]
          exact Or.inl ⟨_, _, rfl⟩
        rw [if_neg h4]
        exact Or.inr ⟨projectID, _, files, rfl, rfl⟩

/-! ## The analysis controller and existing rows -/

/-- Whatever the outcomes of its inserts and pushes, the loop of `StartAnalysis` only
appends rows with status `pending` to the analyses table and leaves the other tables. -/
theorem analysisLoop_appends (env : AnalysisEnv) (pid : Nat) :
    ∀ (types : List String) (i : Nat) (w : World) (created : List Analysis),
      ∃ added : List Analysis,
        (analysisLoop env pid types i w created).1.db.analyses = w.db.analyses ++ added ∧
        (analysisLoop env pid types i w created).1.db.projects = w.db.projects ∧
        (analysisLoop env pid types i w created).1.db.files = w.db.files ∧
        ∀ a ∈ added, a.Status = "pending" ∧ a.Result = "" ∧ a.Metadata = "" := by
  intro types
  induction types with
  | nil =>
    intro i w created
    exact ⟨[], by simp [analysisLoop], rfl, rfl, by simp⟩
  | cons t ts ih =>
    intro i w created
    unfold analysisLoop
    by_cases hc : env.createError i = true
    · rw [if_pos hc]
      exact ⟨[], by simp, rfl, rfl, by simp⟩
    rw [if_neg hc]
    simp only
    by_cases hp : env.pushError i = true
    · rw [if_pos hp]
      refine ⟨[(w.db.createAnalysis
        { ID := 0, ProjectID := pid, FileID := none, Type_ := t, Status := "pending",
          Result := "", Metadata := "", Deleted := false }).2], rfl, rfl, rfl, ?_⟩
      intro a ha
      rw [List.mem_singleton] at ha
      subst ha
      exact ⟨rfl, rfl, rfl⟩
    rw [if_neg hp]
    obtain ⟨added, h1, h2, h3, h4⟩ := ih (i + 1)
      (World.LPush { w with db := (w.db.createAnalysis
        { ID := 0, ProjectID := pid, FileID := none, Type_ := t, Status := "pending",
          Result := "", Metadata := "", Deleted := false }).1 }
        { analysis_id := (w.db.createAnalysis
            { ID := 0, ProjectID := pid, FileID := none, Type_ := t, Status := "pending",
              Result := "", Metadata := "", Deleted := false }).2.ID,
          project_id := pid, type_ := t })
      (created ++ [(w.db.createAnalysis
        { ID := 0, ProjectID := pid, FileID := none, Type_ := t, Status := "pending",
          Result := "", Metadata := "", Deleted := false }).2])
    refine ⟨(w.db.createAnalysis
        { ID := 0, ProjectID := pid, FileID := none, Type_ := t, Status := "pending",
          Result := "", Metadata := "", Deleted := false }).2 :: added, ?_, ?_, ?_, ?_⟩
    · rw [h1]
      simp [World.LPush, Store.createAnalysis]
    · rw [h2]
      rfl
    · rw [h3]
      rfl
    · intro a ha
      rcases List.mem_cons.1 ha with ha | ha
      · subst ha
        exact ⟨rfl, rfl, rfl⟩
      · exact h4 a ha

/-- Every outcome of `StartAnalysis` keeps the rows of the analyses table and appends only
rows with status `pending`. -/
theorem StartAnalysis_appends (env : AnalysisEnv) (w : World) (request : StartAnalysisRequest) :
    ∃ added : List Analysis,
      (StartAnalysis env w request).1.db.analyses = w.db.analyses ++ added ∧
      ∀ a ∈ added, a.Status = "pending" ∧ a.Result = "" ∧ a.Metadata = "" := by
  have same : ∃ added : List Analysis, w.db.analyses = w.db.analyses ++ added ∧
      ∀ a ∈ added, a.Status = "pending" ∧ a.Result = "" ∧ a.Metadata = "" :=
    ⟨[], by simp, by simp⟩
  unfold StartAnalysis
  by_cases h1 : requiredFailures request ≠ []
  · rw [if_pos h1]
    exact same
  rw [if_neg h1]
  by_cases h2 : env.lookupError = true
  · rw [if_pos h2]
    exact same
  rw [if_neg h2]
  cases hproj : w.db.firstProject request.ProjectID with
  | none => exact same
  | some project =>
    simp only
    by_cases h3 : (w.db.preloadFiles project.ID).length = 0
    · rw [if_pos h3]
      exact same
    rw [if_neg h3]
    obtain ⟨added, hA, _, _, hS⟩ :=
      analysisLoop_appends env request.ProjectID (request.Types.getD []) 0 w []
    rcases hres : analysisLoop env request.ProjectID (request.Types.getD []) 0 w [] with
      ⟨w1, reply | createdAnalyses⟩
    · rw [hres] at hA
      exact ⟨added, hA, hS⟩
    · rw [hres] at hA
      refine ⟨added, ?_, hS⟩
      simp only
      split_ifs
      · exact hA
      · simpa [Store.updateProjectStatus] using hA

/-- C12: for every state and every operation of the analysis controller (`StartAnalysis`
with any request and any outcome of its store and queue operations, `GetAnalysisByProject`,
`GetAnalysis`, `GetAnalysisStatus`), every Analysis row that existed before the call is the
same row after it (same position, same status, result and metadata), so a completed or
failed task is never moved to another status; the read handlers leave the whole state
unchanged, and every row `StartAnalysis` adds has status `pending`. -/
theorem C12_existing_tasks_untouched (env : AnalysisEnv) (renv : ReadEnv) (w : World) :
    (∀ request : StartAnalysisRequest,
      (∃ added : List Analysis,
        (StartAnalysis env w request).1.db.analyses = w.db.analyses ++ added ∧
        ∀ a ∈ added, a.Status = "pending") ∧
      (∀ (i : Nat) (a : Analysis), w.db.analyses[i]? = some a →
        ∃ a', (StartAnalysis env w request).1.db.analyses[i]? = some a' ∧
          a'.ID = a.ID ∧ a'.Status = a.Status ∧ a'.Result = a.Result ∧
          a'.Metadata = a.Metadata)) ∧
    (∀ param : Bytes, (GetAnalysisByProject renv w param).1 = w) ∧
    (∀ param : Bytes, (GetAnalysis renv w param).1 = w) ∧
    (∀ param : Bytes, (GetAnalysisStatus renv w param).1 = w) := by
  refine ⟨?_, ?_, ?_, ?_⟩
  · intro request
    obtain ⟨added, hA, hS⟩ := StartAnalysis_appends env w request
    refine ⟨⟨added, hA, fun a ha => (hS a ha).1⟩, ?_⟩
    intro i a hi
    refine ⟨a, ?_, rfl, rfl, rfl, rfl⟩
    rw [hA]
    have hlt : i < w.db.analyses.length := (List.getElem?_eq_some_iff.1 hi).1
    rw [List.getElem?_append_left hlt]
    exact hi
  · intro param
    unfold GetAnalysisByProject
    cases ParseUint param with
    | none => rfl
    | some id => simp only; split_ifs <;> rfl
  · intro param
    unfold GetAnalysis
    cases ParseUint param with
    | none => rfl
    | some id =>
      simp only
      split_ifs
      · rfl
      · cases w.db.firstAnalysis id <;> rfl
  · intro param
    unfold GetAnalysisStatus
    cases ParseUint param with
    | none => rfl
    | some id =>
      simp only
      split_ifs
      · rfl
      · cases w.db.firstAnalysis id <;> rfl

/-! ## Plain text and `IsTextFile` -/

/-- A leading ASCII byte is a complete encoding for `utf8.Valid`. -/
theorem Valid_cons_ascii (x : Nat) (rest : Bytes) (hx : x < 0x80) :
    Valid (x :: rest) = Valid rest := by
  have hf : first x = some (1, 0x00, 0x00) := by
    unfold first
    rw [if_pos hx]
  delta Valid
  simp only [List.brecOn]
  rw [hf]
  rfl

theorem Valid_of_ascii : ∀ b : Bytes, (∀ x ∈ b, x < 0x80) → Valid b = true := by
  intro b
  induction b with
  | nil => intro _; rfl
  | cons x rest ih =>
    intro h
    rw [Valid_cons_ascii x rest (h x (List.mem_cons_self _ _))]
    exact ih (fun y hy => h y (List.mem_cons_of_mem _ hy))

/-- C13 as stated fails: the two bytes `PK` are printable ASCII, yet `IsTextFile`
classifies them (and every text that starts with them) as binary. -/
theorem C13_plain_text_PK_is_binary :
    (∀ x ∈ lit "PK", (0x20 ≤ x ∧ x ≤ 0x7E) ∨ x = 9 ∨ x = 10 ∨ x = 13) ∧
    IsTextFile (lit "PK") = false ∧
    (∀ x ∈ lit "GIF lists\n", (0x20 ≤ x ∧ x ≤ 0x7E) ∨ x = 9 ∨ x = 10 ∨ x = 13) ∧
    IsTextFile (lit "GIF lists\n") = false := by
  decide

/-- C13 (amended): every byte sequence that consists only of printable ASCII bytes
(0x20..0x7E), tab, line feed and carriage return, and that does not begin with one of the
three printable signatures `MZ`, `PK` and `GIF`, is classified text by `IsTextFile`; one
that begins with `MZ`, `PK` or `GIF` is classified binary. -/
theorem C13_plain_text_is_text (b : Bytes)
    (hplain : ∀ x ∈ b, (0x20 ≤ x ∧ x ≤ 0x7E) ∨ x = 9 ∨ x = 10 ∨ x = 13) :
    (¬ lit "MZ" <+: b → ¬ lit "PK" <+: b → ¬ lit "GIF" <+: b → IsTextFile b = true) ∧
    (lit "MZ" <+: b ∨ lit "PK" <+: b ∨ lit "GIF" <+: b → IsTextFile b = false) := by
  constructor
  · intro hMZ hPK hGIF
    by_cases hne : b = []
    · subst hne
      rfl
    have hascii : ∀ x ∈ b, x < 0x80 := by
      intro x hx
      rcases hplain x hx with h | h | h | h <;> omega
    have hfirst : ∀ (p : Bytes) (c : Nat), p <+: b → p.head? = some c →
        (0x20 ≤ c ∧ c ≤ 0x7E) ∨ c = 9 ∨ c = 10 ∨ c = 13 := by
      intro p c hp hc
      apply hplain c
      apply hp.subset
      cases p with
      | nil => simp at hc
      | cons y ys =>
        simp only [List.head?_cons, Option.some.injEq] at hc
        subst hc
        exact List.mem_cons_self _ _
    have hsig : ∀ p ∈ binaryIndicators, ¬ p <+: b := by
      intro p hp hpre
      simp only [binaryIndicators, List.mem_cons, List.mem_singleton, List.not_mem_nil,
        or_false] at hp
      rcases hp with rfl | rfl | rfl | rfl | rfl | rfl | rfl | rfl | rfl
      · have := hfirst _ 0x00 hpre rfl; omega
      · have := hfirst _ 0xFF hpre rfl; omega
      · have := hfirst _ 0xFE hpre rfl; omega
      · have := hfirst _ 0x7F hpre rfl; omega
      · exact hMZ hpre
      · exact hPK hpre
      · have := hfirst _ 0x89 hpre rfl; omega
      · have := hfirst _ 0xFF hpre rfl; omega
      · exact hGIF hpre
    rw [IsTextFile_eq_sample b hne (Valid_of_ascii b hascii) hsig]
    have hzero : (b.take 512).countP isControlByte = 0 := by
      rw [List.countP_eq_zero]
      intro x hx
      have := hplain x (List.mem_of_mem_take hx)
      simp only [isControlByte, Bool.and_eq_true, decide_eq_true_iff, not_and]
      intro h1 h2
      omega
    have hpos : 0 < (b.take 512).length := by
      rw [List.length_take]
      have : 0 < b.length := List.length_pos.2 hne
      omega
    rw [hzero]
    simp only [Nat.mul_zero, decide_eq_true_iff]
    omega
  · intro hsig
    have hmem : ∃ p ∈ binaryIndicators, p <+: b := by
      rcases hsig with h | h | h
      · exact ⟨_, by decide, h⟩
      · exact ⟨_, by decide, h⟩
      · exact ⟨_, by decide, h⟩
    obtain ⟨p, hp, hpre⟩ := hmem
    have hne : b.length ≠ 0 := by
      intro h0
      have hb : b = [] := List.length_eq_zero.1 h0
      subst hb
      have hpnil : p = [] := List.prefix_nil.1 hpre
      subst hpnil
      revert hp
      decide
    have hany : binaryIndicators.any (matchesIndicator b) = true := by
      rw [List.any_eq_true]
      exact ⟨p, hp, (matchesIndicator_iff b p).2 hpre⟩
    unfold IsTextFile
    rw [if_neg hne]
    by_cases hv : Valid b = true
    · simp [hv, hany]
    · simp [hv]

theorem C13_plain_text_is_text_witness :
    (∀ x ∈ lit "package main\n", (0x20 ≤ x ∧ x ≤ 0x7E) ∨ x = 9 ∨ x = 10 ∨ x = 13) ∧
    IsTextFile (lit "package main\n") = true :=
  ⟨by decide,
   (C13_plain_text_is_text (lit "package main\n") (by decide)).1
     (by decide) (by decide) (by decide)⟩

/-! ## Stored file names -/

theorem Contains_singleton (s : Bytes) (c : Nat) : Contains s [c] = true ↔ c ∈ s := by
  unfold Contains
  rw [List.any_eq_true]
  constructor
  · rintro ⟨i, _, hpre⟩
    have hp : [c] <+: s.drop i := (HasPrefix_iff _ _).1 hpre
    exact List.mem_of_mem_drop (hp.subset (List.mem_singleton_self c))
  · intro hc
    obtain ⟨i, hi, hget⟩ := List.getElem_of_mem hc
    refine ⟨i, List.mem_range.2 (by omega), (HasPrefix_iff _ _).2 ?_⟩
    rw [List.drop_eq_getElem_cons hi, hget]
    exact ⟨s.drop (i + 1), rfl⟩

theorem Base_ne_nil (path : Bytes) : Base path ≠ [] := by
  unfold Base
  simp only
  split_ifs with h1 h2
  · decide
  · decide
  · exact h2

/-- Invariant of the upload loop for the names: the rows added carry, in order, the base
names of the parts that pass the name check (all of them when the loop completes), and the
storage path of a row is the upload directory joined with its name. -/
theorem uploadLoop_names (env : UploadEnv) (projectID : Nat) (dir : Bytes) :
    ∀ (files : List UploadedFile) (i : Nat) (w : UploadWorld) (acc : List File),
      ∃ added : List File,
        (uploadLoop env projectID dir files i w acc).1.db.files = w.db.files ++ added ∧
        (∀ r ∈ added, r.Path = env.Join dir r.Name) ∧
        added.map (fun r => r.Name) <+:
          (files.map (fun f => Base f.Filename)).filter
            (fun name => decide (name ≠ lit "." ∧ name ≠ lit ".." ∧ 0x2F ∉ name)) ∧
        (∀ out, (uploadLoop env projectID dir files i w acc).2 = .ok out →
          added.map (fun r => r.Name) =
            (files.map (fun f => Base f.Filename)).filter
              (fun name => decide (name ≠ lit "." ∧ name ≠ lit ".." ∧ 0x2F ∉ name))) := by
  intro files
  induction files with
  | nil =>
    intro i w acc
    exact ⟨[], by simp [uploadLoop], by simp, by simp, by simp⟩
  | cons file rest ih =>
    intro i w acc
    have hslash : Contains (Base file.Filename) (lit "/") = true ↔ 0x2F ∈ Base file.Filename :=
      Contains_singleton _ _
    unfold uploadLoop
    simp only [List.map_cons]
    by_cases hskip : Base file.Filename = lit "." ∨ Base file.Filename = lit ".." ∨
        Contains (Base file.Filename) (lit "/") = true
    · rw [if_pos hskip]
      have hdrop : decide (Base file.Filename ≠ lit "." ∧ Base file.Filename ≠ lit ".." ∧
          0x2F ∉ Base file.Filename) = false := by
        rw [decide_eq_false_iff_not]
        rintro ⟨h1, h2, h3⟩
        rcases hskip with h | h | h
        · exact h1 h
        · exact h2 h
        · exact h3 (hslash.1 h)
      rw [List.filter_cons_of_neg (by simpa using hdrop)]
      exact ih (i + 1) w acc
    rw [if_neg hskip]
    have hkeep : decide (Base file.Filename ≠ lit "." ∧ Base file.Filename ≠ lit ".." ∧
        0x2F ∉ Base file.Filename) = true := by
      rw [decide_eq_true_iff]
      refine ⟨fun h => hskip (Or.inl h), fun h => hskip (Or.inr (Or.inl h)), ?_⟩
      intro h
      exact hskip (Or.inr (Or.inr (hslash.2 h)))
    rw [List.filter_cons_of_pos (by simpa using hkeep)]
    by_cases hsave : env.saveError i = true
    · rw [if_pos hsave]
      exact ⟨[], by simp, by simp, by simp, by simp⟩
    rw [if_neg hsave]
    by_cases hcreate : env.createError i = true
    · rw [if_pos hcreate]
      exact ⟨[], by simp, by simp, by simp, by simp⟩
    rw [if_neg hcreate]
    obtain ⟨added, h1, h2, h3, h4⟩ := ih (i + 1)
      { db := ((({ w with fs := (env.Join dir (Base file.Filename), file.data) :: w.fs } :
          UploadWorld).db).createFile
          { ID := 0, ProjectID := projectID, Name := Base file.Filename,
            Path := env.Join dir (Base file.Filename), Size := file.Size,
            MimeType := file.ContentType,
            Content :=
              match readFileContent ((env.Join dir (Base file.Filename), file.data) :: w.fs)
                (env.readError i) (env.Join dir (Base file.Filename)) with
              | .ok content => content
              | .error _ => [],
            Language := DetectLanguage env.mapLower (Base file.Filename),
            Deleted := false }).1,
        fs := (env.Join dir (Base file.Filename), file.data) :: w.fs }
      (acc ++ [(w.db.createFile
          { ID := 0, ProjectID := projectID, Name := Base file.Filename,
            Path := env.Join dir (Base file.Filename), Size := file.Size,
            MimeType := file.ContentType,
            Content :=
              match readFileContent ((env.Join dir (Base file.Filename), file.data) :: w.fs)
                (env.readError i) (env.Join dir (Base file.Filename)) with
              | .ok content => content
              | .error _ => [],
            Language := DetectLanguage env.mapLower (Base file.Filename),
            Deleted := false }).2])
    refine ⟨(w.db.createFile
          { ID := 0, ProjectID := projectID, Name := Base file.Filename,
            Path := env.Join dir (Base file.Filename), Size := file.Size,
            MimeType := file.ContentType,
            Content :=
              match readFileContent ((env.Join dir (Base file.Filename), file.data) :: w.fs)
                (env.readError i) (env.Join dir (Base file.Filename)) with
              | .ok content => content
              | .error _ => [],
            Language := DetectLanguage env.mapLower (Base file.Filename),
            Deleted := false }).2 :: added, ?_, ?_, ?_, ?_⟩
    · rw [h1]
      simp [Store.createFile]
    · intro r hr
      rcases List.mem_cons.1 hr with hr | hr
      · subst hr
        rfl
      · exact h2 r hr
    · simp only [List.map_cons]
      exact (List.prefix_cons_inj _).2 h3
    · intro out hout
      simp only [List.map_cons]
      rw [h4 out hout]
      rfl

/-- C11 as stated fails: the part named `..\evil.txt` is stored under exactly that name,
which contains a backslash and the sequence `..`. -/
theorem C11_backslash_name_is_stored :
    (UploadFiles quietUploadEnv exampleUploadWorld backslashUpload).2.status = 200 ∧
    (UploadFiles quietUploadEnv exampleUploadWorld backslashUpload).1.db.files.map
      (fun r => r.Name) = [lit "main.go", backslashName] ∧
    0x5C ∈ backslashName ∧ Contains backslashName (lit "..") = true := by
  decide

/-- C11 (amended): in every upload, the name recorded on a stored File is the final
slash-separated element of the client file name; it contains no `/`, is not empty and is
neither `.` nor `..`, and the storage path is the project's upload directory joined with
that name. A part whose final element is `.`, `..` or `/` is skipped: the stored names are,
in order, exactly the final elements that pass this check (a leading part of them when the
upload stops at an error). Backslashes and dots inside a name are kept. -/
theorem C11_stored_names (env : UploadEnv) (w : UploadWorld) (form : UploadForm) :
    ∃ (added : List File) (dir : Bytes),
      (UploadFiles env w form).1.db.files = w.db.files ++ added ∧
      (∀ r ∈ added, 0x2F ∉ r.Name ∧ r.Name ≠ [] ∧ r.Name ≠ lit "." ∧ r.Name ≠ lit ".." ∧
        r.Path = env.Join dir r.Name ∧
        ∃ file ∈ form.files.getD [], r.Name = Base file.Filename) ∧
      added.map (fun r => r.Name) <+:
        ((form.files.getD []).map (fun f => Base f.Filename)).filter
          (fun name => decide (name ≠ lit "." ∧ name ≠ lit ".." ∧ 0x2F ∉ name)) ∧
      (∀ status message out, (UploadFiles env w form).2 = Reply.ok status message out →
        added.map (fun r => r.Name) =
          ((form.files.getD []).map (fun f => Base f.Filename)).filter
            (fun name => decide (name ≠ lit "." ∧ name ≠ lit ".." ∧ 0x2F ∉ name))) := by
  rcases UploadFiles_cases env w form with ⟨status, text, hret⟩ | ⟨projectID, dir, files, hfiles, hret⟩
  · rw [hret]
    exact ⟨[], [], by simp, by simp, by simp, fun s m o h => Reply.noConfusion h⟩
  · rw [hret, hfiles]
    simp only [Option.getD_some]
    obtain ⟨added, hA, hP, hpre, hall⟩ := uploadLoop_names env projectID dir files 0 w []
    obtain ⟨_, _, _, hE, _⟩ := uploadLoop_content env projectID dir files 0 w []
    refine ⟨added, dir, ?_, ?_, hpre, ?_⟩
    · rcases hres : uploadLoop env projectID dir files 0 w [] with ⟨w1, reply | uploaded⟩
      · rw [hres] at hA
        exact hA
      · rw [hres] at hA
        exact hA
    · intro r hr
      have hmem : r.Name ∈ ((files.map (fun f => Base f.Filename)).filter
          (fun name => decide (name ≠ lit "." ∧ name ≠ lit ".." ∧ 0x2F ∉ name))) :=
        hpre.subset (List.mem_map.2 ⟨r, hr, rfl⟩)
      rw [List.mem_filter, decide_eq_true_iff] at hmem
      obtain ⟨hsrc, h1, h2, h3⟩ := hmem
      obtain ⟨file, hfile, hname⟩ := List.mem_map.1 hsrc
      refine ⟨h3, ?_, h1, h2, hP r hr, file, hfile, hname.symm⟩
      rw [← hname]
      exact Base_ne_nil _
    · intro status message out hout
      rcases hres : uploadLoop env projectID dir files 0 w [] with ⟨w1, reply | uploaded⟩
      · rw [hres] at hout hE
        obtain ⟨c, m, hreply⟩ := hE reply rfl
        simp only at hout
        rw [hreply] at hout
        exact Reply.noConfusion hout
      · rw [hres] at hall
        exact hall uploaded rfl

/-! ## Stored file contents -/

/-- Exact run of the upload loop from part index `i`: the parts whose base name passes the
name check are stored one row each, in order, up to the first of them whose save or insert
fails; the row of a part holds its base name and its bytes when the read succeeded and
`IsTextFile` holds, and no bytes otherwise. The loop completes exactly when no such part
fails. -/
theorem uploadLoop_rows (env : UploadEnv) (projectID : Nat) (dir : Bytes) :
    ∀ (files : List UploadedFile) (i : Nat) (w : UploadWorld) (acc : List File),
      ∃ added : List File,
        (uploadLoop env projectID dir files i w acc).1.db.files = w.db.files ++ added ∧
        added.map (fun r => (r.Name, r.Content)) =
          ((((List.enumFrom i files).filter (fun p => decide (Base p.2.Filename ≠ lit "." ∧
              Base p.2.Filename ≠ lit ".." ∧ 0x2F ∉ Base p.2.Filename))).takeWhile
            (fun p => !env.saveError p.1 && !env.createError p.1)).map
            (fun p => (Base p.2.Filename,
              if env.readError p.1 = false ∧ IsTextFile p.2.data = true then p.2.data else []))) ∧
        ((((List.enumFrom i files).filter (fun p => decide (Base p.2.Filename ≠ lit "." ∧
              Base p.2.Filename ≠ lit ".." ∧ 0x2F ∉ Base p.2.Filename))).takeWhile
            (fun p => !env.saveError p.1 && !env.createError p.1) =
            (List.enumFrom i files).filter (fun p => decide (Base p.2.Filename ≠ lit "." ∧
              Base p.2.Filename ≠ lit ".." ∧ 0x2F ∉ Base p.2.Filename)) ∧
          (uploadLoop env projectID dir files i w acc).2 = .ok (acc ++ added)) ∨
         (((List.enumFrom i files).filter (fun p => decide (Base p.2.Filename ≠ lit "." ∧
              Base p.2.Filename ≠ lit ".." ∧ 0x2F ∉ Base p.2.Filename))).takeWhile
            (fun p => !env.saveError p.1 && !env.createError p.1) ≠
            (List.enumFrom i files).filter (fun p => decide (Base p.2.Filename ≠ lit "." ∧
              Base p.2.Filename ≠ lit ".." ∧ 0x2F ∉ Base p.2.Filename)) ∧
          ∃ text, (uploadLoop env projectID dir files i w acc).2 =
            .error (Reply.error 500 text))) := by
  intro files
  induction files with
  | nil =>
    intro i w acc
    exact ⟨[], by simp [uploadLoop], by simp, Or.inl ⟨by simp, by simp [uploadLoop]⟩⟩
  | cons file rest ih =>
    intro i w acc
    have hslash : Contains (Base file.Filename) (lit "/") = true ↔ 0x2F ∈ Base file.Filename :=
      Contains_singleton _ _
    unfold uploadLoop
    simp only [List.enumFrom_cons]
    by_cases hskip : Base file.Filename = lit "." ∨ Base file.Filename = lit ".." ∨
        Contains (Base file.Filename) (lit "/") = true
    · rw [if_pos hskip]
      have hdrop : decide (Base file.Filename ≠ lit "." ∧ Base file.Filename ≠ lit ".." ∧
          0x2F ∉ Base file.Filename) = false := by
        rw [decide_eq_false_iff_not]
        rintro ⟨h1, h2, h3⟩
        rcases hskip with h | h | h
        · exact h1 h
        · exact h2 h
        · exact h3 (hslash.1 h)
      rw [List.filter_cons_of_neg (by simpa using hdrop)]
      exact ih (i + 1) w acc
    rw [if_neg hskip]
    have hkeep : decide (Base file.Filename ≠ lit "." ∧ Base file.Filename ≠ lit ".." ∧
        0x2F ∉ Base file.Filename) = true := by
      rw [decide_eq_true_iff]
      refine ⟨fun h => hskip (Or.inl h), fun h => hskip (Or.inr (Or.inl h)), ?_⟩
      intro h
      exact hskip (Or.inr (Or.inr (hslash.2 h)))
    rw [List.filter_cons_of_pos (by simpa using hkeep)]
    by_cases hsave : env.saveError i = true
    · rw [if_pos hsave]
      have hstop : (!env.saveError i && !env.createError i) = false := by simp [hsave]
      rw [List.takeWhile_cons_of_neg (by simpa using hstop)]
      exact ⟨[], by simp, by simp, Or.inr ⟨by simp, _, rfl⟩⟩
    rw [if_neg hsave]
    by_cases hcreate : env.createError i = true
    · rw [if_pos hcreate]
      have hstop : (!env.saveError i && !env.createError i) = false := by simp [hcreate]
      rw [List.takeWhile_cons_of_neg (by simpa using hstop)]
      exact ⟨[], by simp, by simp, Or.inr ⟨by simp, _, rfl⟩⟩
    rw [if_neg hcreate]
    have hgo : (!env.saveError i && !env.createError i) = true := by simp [hsave, hcreate]
    rw [List.takeWhile_cons_of_pos (by simpa using hgo)]
    have hcontent :
        (match readFileContent ((env.Join dir (Base file.Filename), file.data) :: w.fs)
            (env.readError i) (env.Join dir (Base file.Filename)) with
          | .ok content => content
          | .error _ => ([] : Bytes)) =
        if env.readError i = false ∧ IsTextFile file.data = true then file.data else [] := by
      by_cases hread : env.readError i = true
      · simp [readFileContent, hread]
      · have hread' : env.readError i = false := by simpa using hread
        rw [hread', readFileContent_after_save]
        by_cases htext : IsTextFile file.data = true <;> simp [htext]
    obtain ⟨added, h1, h2, h3⟩ := ih (i + 1)
      { db := (w.db.createFile
          { ID := 0, ProjectID := projectID, Name := Base file.Filename,
            Path := env.Join dir (Base file.Filename), Size := file.Size,
            MimeType := file.ContentType,
            Content :=
              match readFileContent ((env.Join dir (Base file.Filename), file.data) :: w.fs)
                (env.readError i) (env.Join dir (Base file.Filename)) with
              | .ok content => content
              | .error _ => [],
            Language := DetectLanguage env.mapLower (Base file.Filename),
            Deleted := false }).1,
        fs := (env.Join dir (Base file.Filename), file.data) :: w.fs }
      (acc ++ [(w.db.createFile
          { ID := 0, ProjectID := projectID, Name := Base file.Filename,
            Path := env.Join dir (Base file.Filename), Size := file.Size,
            MimeType := file.ContentType,
            Content :=
              match readFileContent ((env.Join dir (Base file.Filename), file.data) :: w.fs)
                (env.readError i) (env.Join dir (Base file.Filename)) with
              | .ok content => content
              | .error _ => [],
            Language := DetectLanguage env.mapLower (Base file.Filename),
            Deleted := false }).2])
    refine ⟨(w.db.createFile
          { ID := 0, ProjectID := projectID, Name := Base file.Filename,
            Path := env.Join dir (Base file.Filename), Size := file.Size,
            MimeType := file.ContentType,
            Content :=
              match readFileContent ((env.Join dir (Base file.Filename), file.data) :: w.fs)
                (env.readError i) (env.Join dir (Base file.Filename)) with
              | .ok content => content
              | .error _ => [],
            Language := DetectLanguage env.mapLower (Base file.Filename),
            Deleted := false }).2 :: added, ?_, ?_, ?_⟩
    · rw [h1]
      simp [Store.createFile]
    · simp only [List.map_cons]
      rw [h2]
      congr 1
      simp only [Store.createFile]
      rw [hcontent]
    · rcases h3 with ⟨heq, hres⟩ | ⟨hne, text, hres⟩
      · refine Or.inl ⟨by rw [heq], ?_⟩
        rw [hres, List.append_assoc]
        rfl
      · refine Or.inr ⟨?_, text, hres⟩
        intro hcon
        exact hne (List.cons.inj hcon).2

/-- When the request passes every check before the loop, `UploadFiles` is the upload loop
on the parts of the form, in the project's upload directory. -/
theorem UploadFiles_reached (env : UploadEnv) (w : UploadWorld) (form : UploadForm)
    (projectID : Nat) (project : Project) (files : List UploadedFile)
    (hparse : ParseUint form.project_id = some projectID)
    (hlookup : env.lookupError = false)
    (hproject : w.db.firstProject projectID = some project)
    (hfiles : form.files = some files) (hne : files ≠ [])
    (hmkdir : env.mkdirError = false) :
    UploadFiles env w form =
      match uploadLoop env projectID
        (env.Join (if env.uploadPath = [] then lit "./uploads" else env.uploadPath)
          (lit (Nat.repr projectID))) files 0 w [] with
      | (w1, .error reply) => (w1, reply)
      | (w1, .ok uploadedFiles) =>
        (w1, Reply.ok 200 "Files uploaded successfully" uploadedFiles) := by
  have hid : form.project_id ≠ [] := by
    intro h
    rw [h] at hparse
    simp [ParseUint] at hparse
  have hlen : ¬ files.length = 0 := by simpa using hne
  unfold UploadFiles
  rw [if_neg hid, hparse]
  simp only [hlookup, hproject, hfiles, hmkdir, Bool.false_eq_true, if_false, hlen]

/-- When some check before the loop fails, `UploadFiles` answers with an error and returns
the state it was given. -/
theorem UploadFiles_not_reached (env : UploadEnv) (w : UploadWorld) (form : UploadForm)
    (h : ¬ ∃ (projectID : Nat) (project : Project) (files : List UploadedFile),
      ParseUint form.project_id = some projectID ∧ env.lookupError = false ∧
      w.db.firstProject projectID = some project ∧ form.files = some files ∧ files ≠ [] ∧
      env.mkdirError = false) :
    ∃ status text, UploadFiles env w form = (w, Reply.error status text) := by
  unfold UploadFiles
  by_cases h1 : form.project_id = []
  · rw [if_pos h1]
    exact ⟨_, _, rfl⟩
  rw [if_neg h1]
  cases hparse : ParseUint form.project_id with
  | none => exact ⟨_, _, rfl⟩
  | some projectID =>
    simp only
    by_cases h2 : env.lookupError = true
    · rw [if_pos h2]
      exact ⟨_, _, rfl⟩
    rw [if_neg h2]
    cases hproj : w.db.firstProject projectID with
    | none => exact ⟨_, _, rfl⟩
    | some project =>
      cases hfiles : form.files with
      | none => exact ⟨_, _, rfl⟩
      | some files =>
        simp only
        by_cases h3 : files.length = 0
        · rw [if_pos h3]
          exact ⟨_, _, rfl⟩
        rw [if_neg h3]
        by_cases h4 : env.mkdirError = true
        · rw [if_pos h4]
          exact ⟨_, _, rfl⟩
        exact absurd ⟨projectID, project, files, hparse, by simpa using h2, hproj, hfiles,
          by simpa using h3, by simpa using h4⟩ h

/-- C9: in every upload that reaches the loop (the project id parses and names a live
project, the form has at least one part, the upload directory exists), the File rows added
are, in the order of the parts, one row for every part whose base name passes the name
check, up to the first such part whose save or insert fails; the row of the part with bytes
`b` holds the part's base name and its `Content` is exactly `b` when the saved file could
be read and `IsTextFile b` is `true`, and the empty string when `IsTextFile b` is `false`
or the read failed. The answer is 200 with exactly these rows when no save or insert
failed, and 500 otherwise. Hence a stored non-empty content is valid UTF-8 and a part
classified binary never stores a payload. An upload that does not reach the loop stores
nothing. -/
theorem C9_stored_content (env : UploadEnv) (w : UploadWorld) (form : UploadForm) :
    (∀ (projectID : Nat) (project : Project) (files : List UploadedFile),
      ParseUint form.project_id = some projectID → env.lookupError = false →
      w.db.firstProject projectID = some project → form.files = some files → files ≠ [] →
      env.mkdirError = false →
      ∃ added : List File,
        (UploadFiles env w form).1.db.files = w.db.files ++ added ∧
        added.map (fun r => (r.Name, r.Content)) =
          (((files.enum.filter (fun p => decide (Base p.2.Filename ≠ lit "." ∧
              Base p.2.Filename ≠ lit ".." ∧ 0x2F ∉ Base p.2.Filename))).takeWhile
            (fun p => !env.saveError p.1 && !env.createError p.1)).map
            (fun p => (Base p.2.Filename,
              if env.readError p.1 = false ∧ IsTextFile p.2.data = true then p.2.data else []))) ∧
        (((files.enum.filter (fun p => decide (Base p.2.Filename ≠ lit "." ∧
              Base p.2.Filename ≠ lit ".." ∧ 0x2F ∉ Base p.2.Filename))).takeWhile
            (fun p => !env.saveError p.1 && !env.createError p.1) =
            files.enum.filter (fun p => decide (Base p.2.Filename ≠ lit "." ∧
              Base p.2.Filename ≠ lit ".." ∧ 0x2F ∉ Base p.2.Filename)) ∧
          (UploadFiles env w form).2 = Reply.ok 200 "Files uploaded successfully" added) ∨
         ((files.enum.filter (fun p => decide (Base p.2.Filename ≠ lit "." ∧
              Base p.2.Filename ≠ lit ".." ∧ 0x2F ∉ Base p.2.Filename))).takeWhile
            (fun p => !env.saveError p.1 && !env.createError p.1) ≠
            files.enum.filter (fun p => decide (Base p.2.Filename ≠ lit "." ∧
              Base p.2.Filename ≠ lit ".." ∧ 0x2F ∉ Base p.2.Filename)) ∧
          ∃ text, (UploadFiles env w form).2 = Reply.error 500 text)) ∧
        (∀ r ∈ added, r.Content ≠ [] → Valid r.Content = true ∧ IsTextFile r.Content = true)) ∧
    ((¬ ∃ (projectID : Nat) (project : Project) (files : List UploadedFile),
        ParseUint form.project_id = some projectID ∧ env.lookupError = false ∧
        w.db.firstProject projectID = some project ∧ form.files = some files ∧ files ≠ [] ∧
        env.mkdirError = false) →
      (UploadFiles env w form).1 = w ∧
      ∃ status text, (UploadFiles env w form).2 = Reply.error status text) := by
  constructor
  · intro projectID project files hparse hlookup hproject hfiles hne hmkdir
    rw [UploadFiles_reached env w form projectID project files hparse hlookup hproject hfiles
      hne hmkdir]
    obtain ⟨added, hA, hpairs, hres⟩ := uploadLoop_rows env projectID
      (env.Join (if env.uploadPath = [] then lit "./uploads" else env.uploadPath)
        (lit (Nat.repr projectID))) files 0 w []
    have hvalid : ∀ r ∈ added, r.Content ≠ [] →
        Valid r.Content = true ∧ IsTextFile r.Content = true := by
      intro r hr hcontent
      have hmem : (r.Name, r.Content) ∈ added.map (fun r => (r.Name, r.Content)) :=
        List.mem_map.2 ⟨r, hr, rfl⟩
      rw [hpairs, List.mem_map] at hmem
      obtain ⟨p, _, hp⟩ := hmem
      have hc : (if env.readError p.1 = false ∧ IsTextFile p.2.data = true then p.2.data
          else []) = r.Content := (Prod.mk.inj hp).2
      by_cases hcond : env.readError p.1 = false ∧ IsTextFile p.2.data = true
      · rw [if_pos hcond] at hc
        rw [← hc]
        exact ⟨IsTextFile_valid _ hcond.2, hcond.2⟩
      · rw [if_neg hcond] at hc
        exact absurd hc.symm hcontent
    refine ⟨added, ?_, hpairs, ?_, hvalid⟩
    · rcases hloop : uploadLoop env projectID
        (env.Join (if env.uploadPath = [] then lit "./uploads" else env.uploadPath)
          (lit (Nat.repr projectID))) files 0 w [] with ⟨w1, reply | uploaded⟩
      · rw [hloop] at hA
        exact hA
      · rw [hloop] at hA
        exact hA
    · rcases hres with ⟨heq, hok⟩ | ⟨hne', text, herr⟩
      · refine Or.inl ⟨heq, ?_⟩
        rcases hloop : uploadLoop env projectID
          (env.Join (if env.uploadPath = [] then lit "./uploads" else env.uploadPath)
            (lit (Nat.repr projectID))) files 0 w [] with ⟨w1, reply | uploaded⟩
        · rw [hloop] at hok
          cases hok
        · rw [hloop] at hok
          simp only [List.nil_append, Except.ok.injEq] at hok
          rw [hok]
      · refine Or.inr ⟨hne', text, ?_⟩
        rcases hloop : uploadLoop env projectID
          (env.Join (if env.uploadPath = [] then lit "./uploads" else env.uploadPath)
            (lit (Nat.repr projectID))) files 0 w [] with ⟨w1, reply | uploaded⟩
        · rw [hloop] at herr
          simp only [Except.error.injEq] at herr
          rw [herr]
        · rw [hloop] at herr
          cases herr
  · intro hnot
    obtain ⟨status, text, hret⟩ := UploadFiles_not_reached env w form hnot
    rw [hret]
    exact ⟨rfl, status, text, rfl⟩

theorem C9_stored_content_witness :
    (UploadFiles quietUploadEnv exampleUploadWorld sameNameUpload).1.db.files.map
      (fun r => (r.Name, r.Content)) =
      [(lit "main.go", lit "package main\n"), (lit "d.txt", lit "one"), (lit "d.txt", [])] ∧
    (UploadFiles quietUploadEnv exampleUploadWorld sameNameUpload).2.status = 200 := by
  have htext : IsTextFile (lit "one") = true := by
    rw [IsTextFile_eq_sample _ (by decide) (by decide) (by decide)]
    decide
  have hbinary : IsTextFile (lit "PKtwo") = false := by decide
  obtain ⟨added, hfiles, hpairs, hreply, _⟩ :=
    (C9_stored_content quietUploadEnv exampleUploadWorld sameNameUpload).1 1
      { ID := 1, Name := "demo", Description := "", UserID := 1, Status := "pending",
        Deleted := false }
      [{ Filename := lit "d.txt", Size := 3, ContentType := lit "text/plain", data := lit "one" },
       { Filename := lit "d.txt", Size := 5, ContentType := lit "text/plain",
         data := lit "PKtwo" }]
      (by decide) rfl (by decide) rfl (by decide) rfl
  constructor
  · rw [hfiles, List.map_append, hpairs]
    simp [List.enum, List.enumFrom, quietUploadEnv, htext, hbinary,
      show Base (lit "d.txt") = lit "d.txt" from by decide,
      show lit "d.txt" ≠ lit "." from by decide, show lit "d.txt" ≠ lit ".." from by decide,
      show 0x2F ∉ lit "d.txt" from by decide]
    decide
  · rcases hreply with ⟨_, hok⟩ | ⟨hne, _⟩
    · rw [hok]
      rfl
    · exact absurd (by decide) hne


/-! ## `SanitizeFilename` and `GetFileSize` at concrete inputs -/

set_option maxRecDepth 100000 in
/-- C14 (evaluation of the code): the 265-byte name `a…a.b…b.txt` whose first dot is byte
251 contains none of the replaced characters and no `..`; the truncation cuts the base
right after that dot and appends `.txt`, so the result is 250 times `a` followed by
`..txt`, which contains `..`. -/
theorem C14_truncation_creates_dotdot :
    Contains dotAtCutName (lit "..") = false ∧
    SanitizeFilename dotAtCutName = some (List.replicate 250 0x61 ++ lit "..txt") ∧
    Contains (List.replicate 250 0x61 ++ lit "..txt") (lit "..") = true := by
  decide

set_option maxRecDepth 100000 in
/-- C15 (evaluation of the code): on the 301-byte name `.aaa…a` the extension is the whole
name, the slice bound `255 - len(ext)` is `-46`, and `base[:255-len(ext)]` panics, so
`SanitizeFilename` does not return; with an extension of at most 255 bytes (here `.gz`
after 300 bytes) the result has exactly 255 bytes and keeps the extension. -/
theorem C15_long_extension_panics :
    Ext longExtensionName = longExtensionName ∧
    (255 : Int) - ((Ext longExtensionName).length : Int) = -46 ∧
    SanitizeFilename longExtensionName = none ∧
    SanitizeFilename (List.replicate 300 0x61 ++ lit ".gz") =
      some (List.replicate 252 0x61 ++ lit ".gz") := by
  decide

/-- C16 (evaluation of the code): `GetFileSize` converts the number with `string(rune(n))`,
which yields the UTF-8 encoding of the code point `n`, not its decimal numeral:
`GetFileSize 500` is the two bytes of U+01F4 followed by ` B`, not `500 B`, and
`GetFileSize 2048` is the byte 0x02 followed by ` KB`, not `2 KB`. -/
theorem C16_size_is_not_a_numeral :
    GetFileSize 500 = some ([0xC7, 0xB4] ++ lit " B") ∧
    GetFileSize 500 ≠ some (lit "500 B") ∧
    GetFileSize 2048 = some ([0x02] ++ lit " KB") ∧
    GetFileSize 2048 ≠ some (lit "2 KB") ∧
    GetFileSize 0 = some ([0x00] ++ lit " B") := by
  decide

/-! ## `SanitizeFilename` and `GetFileSize` in general -/

theorem replaceLoop_byte (c d : Nat) :
    ∀ (fuel : Nat) (s : Bytes), s.length ≤ fuel →
      replaceLoop [c] [d] fuel s = s.map (fun x => if x = c then d else x) := by
  intro fuel
  induction fuel with
  | zero =>
    intro s hs
    have : s = [] := List.length_eq_zero.1 (Nat.le_zero.1 hs)
    subst this
    rfl
  | succ n ih =>
    intro s hs
    cases s with
    | nil => rfl
    | cons x rest =>
      have hrest : rest.length ≤ n := by simpa using hs
      have hpre : ( HasPrefix (x :: rest) [c]) = decide (x = c) := by
        simp [HasPrefix]
      simp only [replaceLoop, hpre, decide_eq_true_iff, List.length_singleton, List.drop_succ_cons,
        List.drop_zero, List.map_cons]
      split_ifs with h
      · rw [ih rest hrest]
        rfl
      · rw [ih rest hrest]

/-- Replacing one byte by another with `strings.ReplaceAll` maps the string byte-wise. -/
theorem ReplaceAll_byte (s : Bytes) (c d : Nat) :
    ReplaceAll s [c] [d] = s.map (fun x => if x = c then d else x) :=
  replaceLoop_byte c d s.length s le_rfl

/-- Replacing the byte `c` by an underscore removes `c` and brings back none of the bytes
that were already absent. -/
theorem replaced_byte_absent (s : Bytes) (c : Nat) (bad : List Nat) (hc : c ≠ 0x5F)
    (h95 : 0x5F ∉ bad) (hbad : ∀ x ∈ s, x ∉ bad) :
    ∀ x ∈ ReplaceAll s [c] [0x5F], x ∉ c :: bad := by
  intro x hx
  rw [ReplaceAll_byte, List.mem_map] at hx
  obtain ⟨y, hy, rfl⟩ := hx
  have hyb := hbad y hy
  intro hmem
  rcases List.mem_cons.1 hmem with h | h
  · split_ifs at h with hyc
    · exact hc h.symm
    · exact hyc h
  · split_ifs at h with hyc
    · exact h95 h
    · exact hyb h

theorem extLoop_suffix (path : Bytes) : ∀ n, extLoop path n <:+ path := by
  intro n
  induction n with
  | zero => exact List.nil_suffix
  | succ i ih =>
    simp only [extLoop]
    split_ifs
    · exact List.nil_suffix
    · exact List.drop_suffix _ _
    · exact ih

theorem HasSuffix_of_suffix (s t : Bytes) (h : t <:+ s) : HasSuffix s t = true := by
  obtain ⟨pre, rfl⟩ := h
  unfold HasSuffix
  simp

/-- Whenever `SanitizeFilename` returns, the result has at most 255 bytes and contains
none of the nine characters it replaces. -/
theorem SanitizeFilename_result (filename r : Bytes) (h : SanitizeFilename filename = some r) :
    r.length ≤ 255 ∧
    ∀ x ∈ r, x ∉ [0x7C, 0x3E, 0x3C, 0x22, 0x3F, 0x2A, 0x3A, 0x5C, 0x2F] := by
  have e1 : lit "/" = [0x2F] := by decide
  have e2 : lit "_" = [0x5F] := by decide
  have e3 : lit ":" = [0x3A] := by decide
  have e4 : lit "*" = [0x2A] := by decide
  have e5 : lit "?" = [0x3F] := by decide
  have e6 : lit "<" = [0x3C] := by decide
  have e7 : lit ">" = [0x3E] := by decide
  have e8 : lit "|" = [0x7C] := by decide
  unfold SanitizeFilename at h
  simp only [e1, e2, e3, e4, e5, e6, e7, e8] at h
  have hchars := replaced_byte_absent _ 0x7C _ (by decide) (by decide)
    (replaced_byte_absent _ 0x3E _ (by decide) (by decide)
    (replaced_byte_absent _ 0x3C _ (by decide) (by decide)
    (replaced_byte_absent _ 0x22 _ (by decide) (by decide)
    (replaced_byte_absent _ 0x3F _ (by decide) (by decide)
    (replaced_byte_absent _ 0x2A _ (by decide) (by decide)
    (replaced_byte_absent _ 0x3A _ (by decide) (by decide)
    (replaced_byte_absent _ 0x5C _ (by decide) (by decide)
    (replaced_byte_absent (ReplaceAll filename (lit "..") (lit "")) 0x2F [] (by decide)
      (by decide) (fun x _ => List.not_mem_nil x)))))))))
  generalize ReplaceAll (ReplaceAll (ReplaceAll (ReplaceAll (ReplaceAll (ReplaceAll (ReplaceAll
    (ReplaceAll (ReplaceAll (ReplaceAll filename (lit "..") (lit "")) [0x2F] [0x5F]) [0x5C] [0x5F])
    [0x3A] [0x5F]) [0x2A] [0x5F]) [0x3F] [0x5F]) [0x22] [0x5F]) [0x3C] [0x5F]) [0x3E] [0x5F])
    [0x7C] [0x5F] = f at h hchars
  by_cases hlen : f.length > 255
  · rw [if_pos hlen] at h
    have hsuf : Ext f <:+ f := extLoop_suffix f _
    have hextlen : (Ext f).length ≤ f.length := hsuf.length_le
    have hbase : TrimSuffix f (Ext f) = f.take (f.length - (Ext f).length) := by
      unfold TrimSuffix
      rw [if_pos (HasSuffix_of_suffix f _ hsuf)]
    have hbaselen : (TrimSuffix f (Ext f)).length = f.length - (Ext f).length := by
      rw [hbase, List.length_take]
      omega
    have hgt : ((TrimSuffix f (Ext f)).length : Int) > 255 - ((Ext f).length : Int) := by
      rw [hbaselen]
      omega
    simp only [hgt, if_true] at h
    unfold sliceTo at h
    split_ifs at h with hb
    · simp only [Option.some.injEq] at h
      subst h
      constructor
      · rw [List.length_append, List.length_take, hbaselen]
        omega
      · intro x hx
        rcases List.mem_append.1 hx with hx | hx
        · apply hchars x
          rw [hbase] at hx
          exact List.mem_of_mem_take (List.mem_of_mem_take hx)
        · exact hchars x (hsuf.subset hx)
  · rw [if_neg hlen] at h
    simp only [Option.some.injEq] at h
    subst h
    exact ⟨by omega, hchars⟩

theorem sizeLoop_eq :
    ∀ (fuel n div exp : Nat), n ≤ fuel →
      sizeLoop fuel n div exp = (div * 1024 ^ Nat.log 1024 n, exp + Nat.log 1024 n) := by
  intro fuel
  induction fuel with
  | zero =>
    intro n div exp hn
    have : n = 0 := Nat.le_zero.1 hn
    subst this
    simp [sizeLoop]
  | succ k ih =>
    intro n div exp hn
    unfold sizeLoop
    by_cases h : n ≥ 1024
    · rw [if_pos h]
      have hdiv : n / 1024 ≤ k := by omega
      rw [ih (n / 1024) (div * 1024) (exp + 1) hdiv,
        Nat.log_of_one_lt_of_le (by norm_num : 1 < 1024) h]
      rw [pow_succ]
      congr 1
      · ring
      · ring
    · rw [if_neg h, Nat.log_of_lt (by omega)]
      simp

/-- For `1024 ≤ n < 2 ^ 60` the unit and the quotient of `GetFileSize` are the ones of the
largest `k` with `1024 ^ k ≤ n`; the number is turned into text by `string(rune(·))`. -/
theorem GetFileSize_eq (n : Nat) (h1 : 1024 ≤ n) (h2 : n < 2 ^ 60) :
    ∃ unit : Bytes,
      [lit "KB", lit "MB", lit "GB", lit "TB", lit "PB"][Nat.log 1024 n - 1]? = some unit ∧
      GetFileSize (n : Int) =
        some (runeToString (toRune ((n / 1024 ^ Nat.log 1024 n : Nat) : Int)) ++ lit " " ++ unit) := by
  have hlog : Nat.log 1024 n = Nat.log 1024 (n / 1024) + 1 :=
    Nat.log_of_one_lt_of_le (by norm_num) h1
  have hlt : Nat.log 1024 n < 6 := by
    apply Nat.log_lt_of_lt_pow (by omega)
    calc n < 2 ^ 60 := h2
      _ = 1024 ^ 6 := by norm_num
  have hidx : Nat.log 1024 (n / 1024) < 5 := by omega
  obtain ⟨unit, hunit⟩ : ∃ unit,
      [lit "KB", lit "MB", lit "GB", lit "TB", lit "PB"][Nat.log 1024 (n / 1024)]? = some unit :=
    ⟨_, List.getElem?_eq_getElem (by simpa using hidx)⟩
  refine ⟨unit, by rw [hlog]; simpa using hunit, ?_⟩
  unfold GetFileSize
  have hnot : ¬ ((n : Int) < 1024) := by omega
  rw [if_neg hnot]
  simp only [Int.toNat_ofNat, sizeLoop_eq (n / 1024) (n / 1024) 1024 0 le_rfl, Nat.zero_add, hunit]
  rw [hlog, pow_succ, Nat.mul_comm]

end ReverseEngineering
